import Mathlib

/-!
Verification development for the megaWallet server core.

Each service of the repository is shallowly embedded as executable Lean
definitions over exact rational arithmetic (JS numbers in the relevant code
paths hold integral satoshi values, milliseconds, and small decimal fees, so
`ℚ` models them exactly at every input used below).  External effects
(database, RPC, explorer, websocket) are passed in explicitly: database state
as a value, fallible network calls as `Except`/`Option` parameters, and
emitted effects as returned traces.
-/

/-- JS `String.prototype.toUpperCase` on the ASCII asset symbols used by the
services. -/
def toUpperCase (s : String) : String := ⟨s.data.map Char.toUpper⟩

namespace QuotingService

/-- Destination-gas / source-gas cost record: `{ cost, asset }` as used by
`QuotingService` (`QuoteFeeDetails.sourceGasCost` and the per-network
destination gas estimates). -/
structure GasCost where
  cost : ℚ
  asset : String
  deriving DecidableEq

/-- `QuoteFeeDetails` from `QuotingService.ts`: exchange fee and platform fee
(both already denominated in the destination asset) plus the source-chain gas
cost in its own native asset. -/
structure QuoteFeeDetails where
  exchangeFee : ℚ
  ourFee : ℚ
  sourceGasCost : GasCost
  deriving DecidableEq

/-- The hardcoded USD price table of `QuotingService.getPriceInUsd`
(unknown symbols price at 0, mirroring `priceMap[...] || 0`). -/
def getPriceInUsd (assetSymbol : String) : ℚ :=
  if toUpperCase assetSymbol = "ETH" then 4300
  else if toUpperCase assetSymbol = "BTC" then 113000
  else if toUpperCase assetSymbol = "USDT" then 1
  else if toUpperCase assetSymbol = "POL" then 28/100
  else if toUpperCase assetSymbol = "BNB" then 902
  else 0

/-- `QuotingService.getConversionRate`: ratio of USD prices; throws when the
destination asset has no price. -/
def getConversionRate (fromAsset toAsset : String) : Except String ℚ :=
  let fromPrice := getPriceInUsd fromAsset
  let toPrice := getPriceInUsd toAsset
  if toPrice = 0 then .error ("Price for toAsset " ++ toAsset ++ " is not available.")
  else .ok (fromPrice / toPrice)

/-- `QuotingService.convertFeesToToAsset`: exchange fee + platform fee +
source gas cost converted into the destination asset. -/
def convertFeesToToAsset (fees : QuoteFeeDetails) (toAssetSymbol : String) :
    Except String ℚ := do
  let rate ← getConversionRate fees.sourceGasCost.asset toAssetSymbol
  let sourceGasCostInToAsset := rate * fees.sourceGasCost.cost
  .ok (fees.exchangeFee + fees.ourFee + sourceGasCostInToAsset)

/-- Step 4 of `QuotingService.getQuote`
(`finalAmountBase = bestRawQuote.grossReceiveAmount - totalBaseCostInToAsset`). -/
def finalAmountBase (gross : ℚ) (fees : QuoteFeeDetails) (toAssetSymbol : String) :
    Except String ℚ := do
  let totalBaseCostInToAsset ← convertFeesToToAsset fees toAssetSymbol
  .ok (gross - totalBaseCostInToAsset)

/-- `Number.prototype.toFixed(8)` on the exactly-representable values that
occur here: rounding to 8 fractional digits (half away from zero upward,
matching `round`). -/
def round8 (q : ℚ) : ℚ := (Int.floor (q * 100000000 + 1/2) : ℚ) / 100000000

/-- One configured EVM deployment of the destination asset together with the
destination-transfer gas estimate `getFinalTransferGasCost` returns for it. -/
structure DestNetwork where
  networkId : String
  destGasCost : GasCost
  deriving DecidableEq

/-- One entry of `receivingOptions` (only the fields that are persisted or
constrain the claims; `totalFeeInUsd`/display fields are response-only). -/
structure ReceivingOption where
  networkId : String
  finalAmount : ℚ
  deriving DecidableEq

/-- `QuotingService.buildEvmReceivingOptions`: the for-loop over the
destination networks, pushing per network an option with
`finalAmount = finalAmountBase - destGasCostInToAsset` serialized with
`toFixed(8)`; a conversion failure aborts the whole call (an exception
escapes the loop). -/
def buildEvmReceivingOptions (toAssetSymbol : String) (fAB : ℚ) :
    List DestNetwork → Except String (List ReceivingOption)
  | [] => .ok []
  | n :: rest => do
    let rate ← getConversionRate n.destGasCost.asset toAssetSymbol
    let destGasCostInToAsset := rate * n.destGasCost.cost
    let o : ReceivingOption :=
      { networkId := n.networkId, finalAmount := round8 (fAB - destGasCostInToAsset) }
    let os ← buildEvmReceivingOptions toAssetSymbol fAB rest
    .ok (o :: os)

/-- The persisted `Quote` row (`prisma.quote.create` in
`buildFinalResponse`); `createdAt` is filled by the database
(`DEFAULT CURRENT_TIMESTAMP` in the migration), all other fields by the
service.  Timestamps are in milliseconds. -/
structure PersistedQuote where
  id : String
  createdAt : ℕ
  expiresAt : ℕ
  grossReceiveAmount : ℚ
  finalReceiveAmount : ℚ
  exchangeFee : ℚ
  ourFee : ℚ
  gasCosts : ℚ
  deriving DecidableEq

/-- Destination branch taken by `buildFinalResponse`: the primary deployment
of the destination asset is either on EVM networks (with their gas
estimates) or on Bitcoin (with the estimated payout fee in BTC). -/
inductive DestSpec
  | evm (nets : List DestNetwork)
  | btc (feeBtc : ℚ)
  deriving DecidableEq

/-- `QuotingService.buildFinalResponse`, restricted to the persisted row.
`tBuild` is the value of `Date.now()` when `expiresAt` is computed
(line 400, before the awaited gas / deposit-address calls); `tInsert` is the
database clock at row insertion, which becomes `createdAt`. -/
def buildFinalResponse (tBuild tInsert : ℕ) (quoteId toAssetSymbol : String)
    (gross : ℚ) (baseFees : QuoteFeeDetails) (fAB : ℚ) (dest : DestSpec) :
    Except String PersistedQuote :=
  let expiresAt := tBuild + 300000
  match dest with
  | .evm nets => do
    let receivingOptions ← buildEvmReceivingOptions toAssetSymbol fAB nets
    match receivingOptions with
    | [] => .error ("No available EVM networks to receive " ++ toAssetSymbol ++ ".")
    | o :: _ =>
      .ok { id := quoteId, createdAt := tInsert, expiresAt := expiresAt,
            grossReceiveAmount := gross, finalReceiveAmount := o.finalAmount,
            exchangeFee := baseFees.exchangeFee, ourFee := baseFees.ourFee,
            gasCosts := baseFees.sourceGasCost.cost }
  | .btc feeBtc =>
    .ok { id := quoteId, createdAt := tInsert, expiresAt := expiresAt,
          grossReceiveAmount := gross,
          finalReceiveAmount := round8 (fAB - feeBtc),
          exchangeFee := baseFees.exchangeFee, ourFee := baseFees.ourFee,
          gasCosts := baseFees.sourceGasCost.cost }

/-- Steps 4-5 of `getQuote` composed with `buildFinalResponse`: the full
numeric pipeline from the gross receive amount to the persisted row. -/
def getQuotePersist (tBuild tInsert : ℕ) (quoteId toAssetSymbol : String)
    (gross : ℚ) (baseFees : QuoteFeeDetails) (dest : DestSpec) :
    Except String PersistedQuote := do
  let fAB ← finalAmountBase gross baseFees toAssetSymbol
  buildFinalResponse tBuild tInsert quoteId toAssetSymbol gross baseFees fAB dest

/-- The older EVM-only path `QuotingService.buildEvmResponse`: same persisted
shape but a 60-second expiry window, `finalReceiveAmount` from the first
receiving option, and a runtime `TypeError` when no option exists
(`receivingOptions[0]` on an empty array). -/
def buildEvmResponsePersist (tBuild tInsert : ℕ) (quoteId toAssetSymbol : String)
    (gross : ℚ) (baseFees : QuoteFeeDetails) (fAB : ℚ) (nets : List DestNetwork) :
    Except String PersistedQuote := do
  let receivingOptions ← buildEvmReceivingOptions toAssetSymbol fAB nets
  match receivingOptions with
  | [] => .error "TypeError: Cannot read properties of undefined"
  | o :: _ =>
    .ok { id := quoteId, createdAt := tInsert, expiresAt := tBuild + 60000,
          grossReceiveAmount := gross, finalReceiveAmount := o.finalAmount,
          exchangeFee := baseFees.exchangeFee, ourFee := baseFees.ourFee,
          gasCosts := baseFees.sourceGasCost.cost }

/-- The quote id built at `buildFinalResponse` line 399: `uuidv4()` with
every dash removed (a global-dash `replace`). -/
def mkQuoteId (uuid : String) : String := ⟨uuid.data.filter (fun c => c ≠ '-')⟩

end QuotingService

namespace EvmContractService

/-- JS `String.prototype.substring(0, n)` on the ASCII quote ids in use. -/
def substringTo (s : String) (n : ℕ) : String := ⟨s.data.take n⟩

/-- `ethers.encodeBytes32String`: the byte sequence of the string (code
points, for the ASCII ids used here) padded with zero bytes to exactly 32;
ethers throws for strings needing more than 31 bytes (it reserves a NUL
terminator). -/
def encodeBytes32String (s : String) : Except String (List ℕ) :=
  if s.length ≤ 31 then
    .ok ((s.data.map Char.toNat) ++ List.replicate (32 - s.length) 0)
  else .error "bytes32 string must be less than 32 bytes long"

/-- `EvmContractService.executeTrade`, line 74 (identically in the unnamed
copy part_002 line 184):
`ethers.encodeBytes32String(quoteId.substring(0, 31))`. -/
def quoteIdBytes32 (quoteId : String) : Except String (List ℕ) :=
  encodeBytes32String (substringTo quoteId 31)

/-- A transaction receipt as resolved by `txResponse.wait(1)` (`gasUsed` and
`gasPrice` in wei). -/
structure Receipt where
  status : ℕ
  gasUsed : ℕ
  gasPrice : ℕ
  blockNumber : ℕ
  deriving DecidableEq

/-- An error thrown by the ethers library: a message plus the optional
`error.reason` revert string.  Errors thrown by the service itself carry no
`reason`. -/
structure EthersError where
  message : String
  reason : Option String
  deriving DecidableEq

/-- The behavior of `tx.wait(1)` in real time: when (in milliseconds after
submission) the promise settles, if ever, and with what outcome. -/
structure WaitBehavior where
  settlesAt : Option ℕ
  outcome : Except EthersError Receipt

/-- The timeout of `EvmContractService.executeTrade` (line 122): the timer
promise rejects after 80000 ms with
`Error("Transaction timed out after 80 seconds.")`. -/
def TIMEOUT_MS : ℕ := 80000

/-- `Promise.race([tx.wait(1), timeoutPromise])` (lines 121-129): the first
settled promise wins — the wait's own outcome when it settles strictly
inside the 80-second bound, the timer's rejection when the wait settles
later or never.  (At the exact boundary instant the event loop order is
unspecified; the model lets the timer win there, which only affects that
single millisecond.) -/
def raceOutcome (w : WaitBehavior) : Except EthersError Receipt :=
  match w.settlesAt with
  | none => .error { message := "Transaction timed out after 80 seconds.", reason := none }
  | some t =>
    if t < TIMEOUT_MS then w.outcome
    else .error { message := "Transaction timed out after 80 seconds.", reason := none }

/-- Outcomes of the awaited external calls made by
`EvmContractService.executeTrade` (EvmContractService.ts lines 68-147), in
program order: the `getPhoenixContract`/`getOwnerWallet` configuration
lookup (performed both before the try block, line 71, and inside it, line
78), `getFeeData` (whose `gasPrice` may be null), the
`executeTradeWithPermit` submission yielding the transaction hash, and the
confirmation wait raced against the timeout. -/
structure EvmCallEnv where
  phoenixConfig : Except EthersError Unit
  feeGasPrice : Except EthersError (Option ℕ)
  send : Except EthersError String
  wait : WaitBehavior

structure EvmTradeResult where
  txHash : String
  receipt : Receipt
  deriving DecidableEq

/-- The catch block of `executeTrade` (lines 140-146): any error from the
try block is rethrown as
`On-chain transaction failed: <error.reason or Unknown error>`.  The
service's own thrown Errors — including the timeout and the revert check —
have no `reason`, so they all wrap to `Unknown error`. -/
def wrapEvmError (e : EthersError) : String :=
  "On-chain transaction failed: " ++ e.reason.getD "Unknown error"

/-- The try block of `executeTrade` (lines 76-138): repeated contract
lookup, fee data with the null-gas-price check, a 10% gas-price boost, the
submission, the raced confirmation wait, and the on-chain revert check. -/
def executeTradeBody (env : EvmCallEnv) : Except EthersError EvmTradeResult := do
  let _ ← env.phoenixConfig
  let gasPrice? ← env.feeGasPrice
  match gasPrice? with
  | none => Except.error ⟨"Could not fetch gas price from the network.", none⟩
  | some gasPrice =>
    let _boostedGasPrice := gasPrice * 110 / 100
    let txHash ← env.send
    match raceOutcome env.wait with
    | .error e => Except.error e
    | .ok receipt =>
      if receipt.status ≠ 1 then
        Except.error ⟨"Transaction failed on-chain with status 0.", none⟩
      else
        Except.ok ⟨txHash, receipt⟩

/-- `EvmContractService.executeTrade` (lines 68-147): the contract lookup
and the quote-id encoding happen before the try block (lines 71-74), so a
configuration error propagates unwrapped; everything inside the try is
caught and wrapped. -/
def executeTrade (quoteId : String) (env : EvmCallEnv) :
    Except String EvmTradeResult :=
  match env.phoenixConfig with
  | .error e => .error e.message
  | .ok _ =>
    let _ := quoteIdBytes32 quoteId
    match executeTradeBody env with
    | .error e => .error (wrapEvmError e)
    | .ok r => .ok r

end EvmContractService

namespace BitcoinHDWalletService

/-- The in-memory service field `nextAddressIndex` together with the
persisted `hdWalletState.nextIndex` row for the one managed wallet. -/
structure WalletState where
  mem : ℕ
  db : ℕ
  deriving DecidableEq

/-- `NewAddressResult` (address and derivation index; the path is determined
by the index). -/
structure NewAddressResult where
  address : String
  index : ℕ
  deriving DecidableEq

/-- Address derivation at a given index: `derivePath` on the configured
relative path template with the index substituted, then `p2wpkh`.  The
cryptographic derivation is an external collaborator (`bip32`,
`bitcoinjs-lib`); the embedding keeps only what the service relies on — the
address is a deterministic function of the index. -/
def deriveAddress (index : ℕ) : String := "p2wpkh/0/" ++ toString index

/-- The synchronous prefix of `getNewAddress` (BitcoinHDWalletService.ts
lines 90-115): read `this.nextAddressIndex`, derive the address, compute
`newIndex = index + 1`.  Nothing is written yet; the first suspension point
of the async function is the awaited `saveNextAddressIndexToDB`. -/
def getNewAddress_entry (s : WalletState) : ℕ := s.mem

/-- `saveNextAddressIndexToDB` (lines 79-85): the prisma upsert writing the
new cursor value to the database. -/
def saveNextAddressIndexToDB (s : WalletState) (index : ℕ) : WalletState :=
  { s with db := index }

/-- The continuation of `getNewAddress` after the awaited save (lines
116-120): `this.nextAddressIndex = newIndex`, then return the result built
from the locally captured index. -/
def getNewAddress_resume (s : WalletState) (idx : ℕ) :
    WalletState × NewAddressResult :=
  ({ s with mem := idx + 1 }, { address := deriveAddress idx, index := idx })

/-- `getNewAddress` run without interleaving: entry, awaited save, resume. -/
def getNewAddress (s : WalletState) : WalletState × NewAddressResult :=
  let idx := getNewAddress_entry s
  let s1 := saveNextAddressIndexToDB s (idx + 1)
  getNewAddress_resume s1 idx

/-- N sequential `getNewAddress` calls, collecting the returned results. -/
def runSequential : ℕ → WalletState → WalletState × List NewAddressResult
  | 0, s => (s, [])
  | n+1, s =>
    let p := getNewAddress s
    let q := runSequential n p.1
    (q.1, p.2 :: q.2)

/-- An interleaving the JS event loop permits for two concurrent
`getNewAddress` calls: call A runs its synchronous prefix and suspends on
the awaited save; call B then runs its synchronous prefix (the in-memory
cursor has not been advanced yet — that happens only after A's await);
A's save lands and A resumes; B's save lands and B resumes. -/
def twoConcurrentCalls (s : WalletState) :
    WalletState × NewAddressResult × NewAddressResult :=
  let idxA := getNewAddress_entry s
  let idxB := getNewAddress_entry s
  let sA := saveNextAddressIndexToDB s (idxA + 1)
  let pA := getNewAddress_resume sA idxA
  let sB := saveNextAddressIndexToDB pA.1 (idxB + 1)
  let pB := getNewAddress_resume sB idxB
  (pB.1, pA.2, pB.2)

end BitcoinHDWalletService

namespace BitcoinPayoutService

/-- A spendable unspent output as returned by the explorer
(`value` in satoshis). -/
structure Utxo where
  txid : String
  vout : ℕ
  value : ℚ
  deriving DecidableEq

/-- One output added to the payout PSBT. -/
structure TxOutput where
  address : String
  value : ℚ
  deriving DecidableEq

/-- The observable external calls of `sendBitcoin`, in program order. -/
inductive PayoutEffect
  | fetchUtxos (address : String)
  | fetchFeeRate
  | broadcastTx
  deriving DecidableEq

/-- `Math.round` (half toward positive infinity). -/
def jsRound (q : ℚ) : ℤ := Int.floor (q + 1/2)

/-- `estimateTxSize`: the fixed linear P2WPKH size model
`inputCount * 68 + outputCount * 31 + 11` (`Math.ceil` of an integer is the
integer itself). -/
def estimateTxSize (inputCount outputCount : ℕ) : ℕ :=
  inputCount * 68 + outputCount * 31 + 11

/-- `deriveAddressFromPath('0/0')`: both the treasury address and the change
address are the same derivation (path 0/0); the cryptographic derivation is
an external collaborator, so the embedding uses one fixed address value. -/
def treasuryAddress : String := "p2wpkh-0/0"

/-- The coin-selection for-loop of `sendBitcoin` (lines 70-91): add UTXOs in
the order returned, recompute `estimatedFee` from the current input count
(with 2 outputs assumed) after each addition, and break as soon as
`totalInputSatoshi >= amountInSatoshi + estimatedFee`.  Returns the input
count and accumulated satoshi total. -/
def selectLoop (amountInSatoshi feeRate : ℚ) :
    List Utxo → ℕ → ℚ → ℕ × ℚ
  | [], count, total => (count, total)
  | u :: rest, count, total =>
    let count' := count + 1
    let total' := total + u.value
    let estimatedFee := (estimateTxSize count' 2 : ℚ) * feeRate
    if amountInSatoshi + estimatedFee ≤ total' then (count', total')
    else selectLoop amountInSatoshi feeRate rest count' total'

/-- The transaction `sendBitcoin` would broadcast. -/
structure PayoutResult where
  inputCount : ℕ
  totalInputSatoshi : ℚ
  outputs : List TxOutput
  changeAmount : ℚ
  deriving DecidableEq

/-- `BitcoinPayoutService.sendBitcoin` (the active version, lines 45-141):
`utxos` is the explorer's response for the treasury address and `feeRate`
the recommended sats/vB rate.  Returns the outcome together with the trace
of external calls; the broadcast happens only after all checks pass.
Input signing (lines 118-133) is key handling by external collaborators and
cannot fail for treasury-derived inputs. -/
def sendBitcoin (recipientAddress : String) (amountInBtc : ℚ)
    (utxos : List Utxo) (feeRate : ℚ) :
    Except String PayoutResult × List PayoutEffect :=
  let amountInSatoshi : ℚ := (jsRound (amountInBtc * 100000000) : ℚ)
  if utxos = [] then
    (.error "Payout wallet has no spendable UTXOs.",
     [PayoutEffect.fetchUtxos treasuryAddress])
  else
    let effs := [PayoutEffect.fetchUtxos treasuryAddress, PayoutEffect.fetchFeeRate]
    let sel := selectLoop amountInSatoshi feeRate utxos 0 0
    let inputCount := sel.1
    let totalInputSatoshi := sel.2
    let finalEstimatedFee : ℚ := (estimateTxSize inputCount 2 : ℚ) * feeRate
    if totalInputSatoshi < amountInSatoshi + finalEstimatedFee then
      (.error ("Insufficient funds. Required ~" ++
          toString (amountInSatoshi + finalEstimatedFee) ++
          " sats, but only have " ++ toString totalInputSatoshi ++ " sats."),
       effs)
    else
      let changeAmount := totalInputSatoshi - amountInSatoshi - finalEstimatedFee
      let outputs :=
        ⟨recipientAddress, amountInSatoshi⟩ ::
          (if 546 < changeAmount then [⟨treasuryAddress, changeAmount⟩] else [])
      (.ok { inputCount := inputCount, totalInputSatoshi := totalInputSatoshi,
             outputs := outputs, changeAmount := changeAmount },
       effs ++ [PayoutEffect.broadcastTx])

end BitcoinPayoutService

namespace TradeExecutionService

inductive TradeStatus
  | PENDING
  | PROCESSING
  | COMPLETED
  | FAILED
  deriving DecidableEq

/-- A `Trade` row (migration part_000; `quoteId` carries the
`Trade_quoteId_key` unique index). -/
structure Trade where
  id : ℕ
  quoteId : String
  status : TradeStatus
  txHashContractCall : Option String := none
  txHashFinalTransfer : Option String := none
  failureReason : Option String := none
  deriving DecidableEq

/-- The `Quote` fields the execution service reads. -/
structure QuoteRow where
  id : String
  expiresAt : ℕ
  fromNetworkId : String
  toNetworkId : Option String
  toAssetSymbol : String
  bestExchange : String
  recipientAddress : Option String
  finalReceiveAmount : ℚ
  exchangeFee : ℚ
  ourFee : ℚ
  deriving DecidableEq

/-- The relational store: quote rows, trade rows, and the id sequence for
new trades. -/
structure Db where
  quotes : List QuoteRow
  trades : List Trade
  nextTradeId : ℕ
  deriving DecidableEq

/-- `prisma.quote.findUnique` on the primary key. -/
def findUniqueQuote (db : Db) (quoteId : String) : Option QuoteRow :=
  db.quotes.find? (fun q => q.id == quoteId)

/-- `prisma.trade.findFirst` on `quoteId`. -/
def findFirstTrade (db : Db) (quoteId : String) : Option Trade :=
  db.trades.find? (fun t => t.quoteId == quoteId)

/-- `prisma.trade.create`: the `Trade_quoteId_key` unique index makes the
insert fail when a row for the same quote already exists. -/
def tradeCreate (db : Db) (quoteId : String) (status : TradeStatus)
    (txHashContractCall : Option String) : Except String (Db × Trade) :=
  if db.trades.any (fun t => t.quoteId == quoteId) then
    .error "Unique constraint failed on the fields: quoteId"
  else
    let t : Trade := { id := db.nextTradeId, quoteId := quoteId, status := status,
                       txHashContractCall := txHashContractCall }
    .ok ({ db with trades := db.trades ++ [t], nextTradeId := db.nextTradeId + 1 }, t)

/-- `prisma.trade.update` on the trade primary key. -/
def tradeUpdate (db : Db) (tradeId : ℕ) (f : Trade → Trade) : Db :=
  { db with trades := db.trades.map (fun t => if t.id == tradeId then f t else t) }

/-- A network record from the blockchain registry. -/
structure Network where
  id : String
  networkType : String
  chainId : Option ℕ
  currencySymbol : String
  deriving DecidableEq

/-- An asset deployment record from the asset registry. -/
structure AssetConfig where
  contractAddress : Option String
  decimals : ℕ
  deriving DecidableEq

/-- A websocket broadcast
(`getWebSocketManager().broadcast(\x7b type, tradeId, quoteId, ... \x7d)`). -/
structure Notification where
  type : String
  tradeId : ℕ
  quoteId : String
  reason : Option String := none
  finalTxHash : Option String := none
  deriving DecidableEq

/-- The external collaborators of `TradeExecutionService`: the current
clock, the two registries, and the outcome of each awaited on-chain call
this execution would make. -/
structure Env where
  now : ℕ
  getNetworkById : String → Option Network
  getAssetBySymbol : String → String → Option AssetConfig
  contractCall : Except String EvmContractService.EvmTradeResult
  metaTx : Except String String
  sendBitcoin : Except String String
  sendErc20Token : Except String String
  sendNativeToken : Except String String
  finalTransferGasCost : Except String ℚ

/-- `TradeExecutionService.validateQuote` (lines 210-230): NotFound, then
expiry (`new Date() > quote.expiresAt`), then AlreadyUsed. -/
def validateQuote (db : Db) (env : Env) (quoteId : String) :
    Except String QuoteRow :=
  match findUniqueQuote db quoteId with
  | none => .error ("Quote with ID " ++ quoteId ++ " not found.")
  | some quote =>
    if quote.expiresAt < env.now then .error "Quote has expired."
    else
      match findFirstTrade db quoteId with
      | some _ => .error "This quote has already been used."
      | none => .ok quote

/-- The price table of `TradeExecutionService.convertAmount` (line 328) —
note it differs from the QuotingService table (BTC 113937, BNB 908). -/
def convertAmountPrice (asset : String) : Option ℚ :=
  if toUpperCase asset = "ETH" then some 4300
  else if toUpperCase asset = "USDT" then some 1
  else if toUpperCase asset = "BNB" then some 908
  else if toUpperCase asset = "BTC" then some 113937
  else none

/-- `TradeExecutionService.convertAmount` (lines 323-339). -/
def convertAmount (amount : ℚ) (fromAsset toAsset : String) :
    Except String ℚ :=
  if toUpperCase fromAsset = toUpperCase toAsset then .ok amount
  else
    match convertAmountPrice fromAsset, convertAmountPrice toAsset with
    | some fromPriceUsd, some toPriceUsd =>
      if toPriceUsd = 0 then
        .error ("Cannot convert from " ++ fromAsset ++ " to " ++ toAsset ++ ": price not found.")
      else
        .ok (amount * fromPriceUsd / toPriceUsd)
    | _, _ =>
      .error ("Cannot convert from " ++ fromAsset ++ " to " ++ toAsset ++ ": price not found.")

/-- Parameters of `executeTrade` (the permit parameters flow only into the
contract call, whose outcome the environment carries). -/
structure ExecuteTradeParams where
  quoteId : String
  selectedNetworkId : String
  recipientAddress : String
  deriving DecidableEq

/-- `Math.floor(x * 10^decimals) / 10^decimals` followed by
`toFixed(decimals)`. -/
def floorToDecimals (q : ℚ) (decimals : ℕ) : ℚ :=
  (Int.floor (q * 10 ^ decimals) : ℚ) / 10 ^ decimals

/-- The try block of `TradeExecutionService.executeTrade` (lines 78-183):
source-network lookup, contract call, actual-gas computation
(`formatEther` divides the wei product by 10^18), recomputation of the
payout amount, destination lookups, payout dispatch by network family and
token kind, and the destination-gas estimate fetched before the final
update. -/
def executeTradeTry (env : Env) (p : ExecuteTradeParams) (quote : QuoteRow) :
    Except String (String × String) := do
  let fromNetwork ←
    match env.getNetworkById quote.fromNetworkId with
    | none => Except.error "Source network for the quote is invalid."
    | some n =>
      if n.chainId = none then Except.error "Source network for the quote is invalid."
      else Except.ok n
  let r ← env.contractCall
  let actualGasCostInNativeToken : ℚ :=
    ((r.receipt.gasUsed * r.receipt.gasPrice : ℕ) : ℚ) / 10 ^ 18
  let grossReceiveAmount := quote.finalReceiveAmount
  let exchangeFee := quote.exchangeFee
  let ourFee := quote.ourFee
  let sourceGasCostInToAsset ←
    convertAmount actualGasCostInNativeToken fromNetwork.currencySymbol quote.toAssetSymbol
  let _finalAmountToSend := grossReceiveAmount - exchangeFee - ourFee - sourceGasCostInToAsset
  let toNetwork ←
    match env.getNetworkById p.selectedNetworkId with
    | none => Except.error "Destination network not found."
    | some n => Except.ok n
  let toAssetConfig ←
    match env.getAssetBySymbol quote.toAssetSymbol toNetwork.id with
    | none => Except.error "Destination asset config not found."
    | some c => Except.ok c
  let finalTxHash ←
    if toNetwork.networkType = "BITCOIN" then env.sendBitcoin
    else if toNetwork.networkType = "EVM" then
      if toAssetConfig.contractAddress ≠ none then env.sendErc20Token
      else env.sendNativeToken
    else
      Except.error ("Unsupported destination network type: " ++ toNetwork.networkType)
  let _ ← env.finalTransferGasCost
  Except.ok (r.txHash, finalTxHash)

/-- `TradeExecutionService.executeTrade` (lines 65-203): validate, create
the Trade(PENDING), run the try block; on success update to COMPLETED with
both hashes and broadcast TRADE_COMPLETED; on any failure update to FAILED
with the message as `failureReason`, broadcast TRADE_FAILED, and re-raise.
Returns the final store, the broadcasts in order, and the caller-visible
outcome. -/
def executeTrade (db : Db) (env : Env) (p : ExecuteTradeParams) :
    Db × List Notification × Except String ℕ :=
  match validateQuote db env p.quoteId with
  | .error e => (db, [], .error e)
  | .ok quote =>
    match tradeCreate db quote.id .PENDING none with
    | .error e => (db, [], .error e)
    | .ok (db1, trade) =>
      match executeTradeTry env p quote with
      | .ok (txHash, finalTxHash) =>
        (tradeUpdate db1 trade.id (fun t =>
            { t with status := .COMPLETED,
                     txHashContractCall := some txHash,
                     txHashFinalTransfer := some finalTxHash }),
         [{ type := "TRADE_COMPLETED", tradeId := trade.id, quoteId := quote.id,
            finalTxHash := some finalTxHash }],
         .ok trade.id)
      | .error err =>
        (tradeUpdate db1 trade.id (fun t =>
            { t with status := .FAILED, failureReason := some err }),
         [{ type := "TRADE_FAILED", tradeId := trade.id, quoteId := quote.id,
            reason := some err }],
         .error err)

/-- The try block of `executeNativeSwap` (lines 245-315): relay the
meta-transaction, recompute the rounded amount, dispatch the payout by
destination family.  The bang-asserted registry lookups surface as runtime
TypeErrors when absent; the success path broadcasts nothing (line 313 is a
comment). -/
def executeNativeSwapTry (env : Env) (quote : QuoteRow) :
    Except String (String × String) := do
  let txHash ← env.metaTx
  let toNetwork ←
    match quote.toNetworkId.bind env.getNetworkById with
    | none => Except.error "TypeError: Cannot read properties of undefined (reading networkType)"
    | some n => Except.ok n
  let toAssetConfig ←
    match env.getAssetBySymbol quote.toAssetSymbol (quote.toNetworkId.getD "") with
    | none => Except.error "TypeError: Cannot read properties of undefined (reading decimals)"
    | some c => Except.ok c
  let finalAmountToSend := quote.finalReceiveAmount
  let _amountToSendString := floorToDecimals finalAmountToSend toAssetConfig.decimals
  let finalTxHash ←
    if toNetwork.networkType = "EVM" ∧ toNetwork.chainId ≠ none then
      if toAssetConfig.contractAddress ≠ none then env.sendErc20Token
      else env.sendNativeToken
    else if toNetwork.networkType = "BITCOIN" then env.sendBitcoin
    else
      Except.error ("Unsupported destination network type for payout: " ++ toNetwork.networkType)
  Except.ok (txHash, finalTxHash)

/-- `TradeExecutionService.executeNativeSwap` (lines 232-321): validate,
create Trade(PENDING), run the try block; on success update to COMPLETED
(no broadcast — line 313 is only a comment); on failure the catch block
(lines 317-320) holds only a placeholder comment and `throw error`, so the
Trade is left as created (status PENDING, no failureReason) and nothing is
broadcast before the error is re-raised. -/
def executeNativeSwap (db : Db) (env : Env) (quoteId : String) :
    Db × List Notification × Except String ℕ :=
  match validateQuote db env quoteId with
  | .error e => (db, [], .error e)
  | .ok quote =>
    match tradeCreate db quote.id .PENDING none with
    | .error e => (db, [], .error e)
    | .ok (db1, trade) =>
      match executeNativeSwapTry env quote with
      | .ok (txHash, finalTxHash) =>
        (tradeUpdate db1 trade.id (fun t =>
            { t with status := .COMPLETED,
                     txHashContractCall := some txHash,
                     txHashFinalTransfer := some finalTxHash }),
         [],
         .ok trade.id)
      | .error err =>
        (db1, [], .error err)

/-- The decoded `NativeTradeInitiated` event payload. -/
structure NativeSwapEventData where
  user : String
  amount : ℚ
  quoteId : String
  networkId : String
  txHash : String
  deriving DecidableEq

/-- The try block of `executeNativeSwapFromEvent` (lines 377-430): no relay
step (the source leg is the observed event), payout dispatch as in the
native path but with the event-path error message. -/
def eventSwapTry (env : Env) (quote : QuoteRow) : Except String String := do
  let toNetwork ←
    match quote.toNetworkId.bind env.getNetworkById with
    | none => Except.error "TypeError: Cannot read properties of undefined (reading networkType)"
    | some n => Except.ok n
  let toAssetConfig ←
    match env.getAssetBySymbol quote.toAssetSymbol (quote.toNetworkId.getD "") with
    | none => Except.error "TypeError: Cannot read properties of undefined (reading decimals)"
    | some c => Except.ok c
  let finalAmountToSend := quote.finalReceiveAmount
  let _amountToSendString := floorToDecimals finalAmountToSend toAssetConfig.decimals
  let finalTxHash ←
    if toNetwork.networkType = "EVM" ∧ toNetwork.chainId ≠ none then
      if toAssetConfig.contractAddress ≠ none then env.sendErc20Token
      else env.sendNativeToken
    else if toNetwork.networkType = "BITCOIN" then env.sendBitcoin
    else
      Except.error ("Unsupported destination network type: " ++ toNetwork.networkType)
  Except.ok finalTxHash

/-- `TradeExecutionService.executeNativeSwapFromEvent` (lines 345-447):
missing quote → log and return; existing trade → skip; otherwise create
Trade(PROCESSING) carrying the event transaction hash, run the payout; on
success update to COMPLETED and broadcast; on failure update to FAILED with
the reason and broadcast (no re-raise — fire and forget). -/
def executeNativeSwapFromEvent (db : Db) (env : Env)
    (ev : NativeSwapEventData) : Db × List Notification :=
  match findUniqueQuote db ev.quoteId with
  | none => (db, [])
  | some quote =>
    match findFirstTrade db quote.id with
    | some _ => (db, [])
    | none =>
      match tradeCreate db quote.id .PROCESSING (some ev.txHash) with
      | .error _ => (db, [])
      | .ok (db1, trade) =>
        match eventSwapTry env quote with
        | .ok finalTxHash =>
          (tradeUpdate db1 trade.id (fun t =>
              { t with status := .COMPLETED,
                       txHashFinalTransfer := some finalTxHash }),
           [{ type := "TRADE_COMPLETED", tradeId := trade.id, quoteId := quote.id,
              finalTxHash := some finalTxHash }])
        | .error err =>
          (tradeUpdate db1 trade.id (fun t =>
              { t with status := .FAILED, failureReason := some err }),
           [{ type := "TRADE_FAILED", tradeId := trade.id, quoteId := quote.id,
              reason := some err }])

/-- The at-most-one-trade-per-quote invariant. -/
def AtMostOne (db : Db) : Prop :=
  ∀ quoteId : String, db.trades.countP (fun t => t.quoteId == quoteId) ≤ 1

/-- A concrete valid, unexpired quote used as a test fixture. -/
def fixtureQuote : QuoteRow :=
  { id := "q1", expiresAt := 1000, fromNetworkId := "bsc",
    toNetworkId := some "polygon", toAssetSymbol := "USDT",
    bestExchange := "wallex", recipientAddress := some "0xrec",
    finalReceiveAmount := 93, exchangeFee := 1, ourFee := 1 }

/-- A registry fixture with an EVM source chain and an EVM destination
chain. -/
def fixtureRegistry : String → Option Network := fun id =>
  if id = "bsc" then some { id := "bsc", networkType := "EVM",
                            chainId := some 56, currencySymbol := "BNB" }
  else if id = "polygon" then some { id := "polygon", networkType := "EVM",
                                     chainId := some 137, currencySymbol := "POL" }
  else none

/-- An asset-registry fixture deploying USDT as a token on any network. -/
def fixtureAssets : String → String → Option AssetConfig := fun sym _ =>
  if sym = "USDT" then some { contractAddress := some "0xusdt", decimals := 6 }
  else none

/-- An environment in which everything up to the final payout succeeds and
the ERC20 payout is rejected by the destination node. -/
def fixtureEnvPayoutFails : Env :=
  { now := 500, getNetworkById := fixtureRegistry,
    getAssetBySymbol := fixtureAssets,
    contractCall := .ok { txHash := "0xcall",
                          receipt := { status := 1, gasUsed := 21000,
                                       gasPrice := 1000000000, blockNumber := 7 } },
    metaTx := .ok "0xmeta",
    sendBitcoin := .error "Failed to broadcast Bitcoin transaction: dust",
    sendErc20Token := .error "insufficient funds for intrinsic transaction cost",
    sendNativeToken := .error "insufficient funds for intrinsic transaction cost",
    finalTransferGasCost := .ok 1 }

/-- A store holding the fixture quote and no trades. -/
def fixtureDb : Db := { quotes := [fixtureQuote], trades := [], nextTradeId := 0 }

/-- The fixture store after a trade for the quote already exists. -/
def fixtureDbUsed : Db :=
  { quotes := [fixtureQuote],
    trades := [{ id := 0, quoteId := "q1", status := .PENDING }],
    nextTradeId := 1 }

/-- An event-monitor payload referencing the fixture quote. -/
def fixtureEvent : NativeSwapEventData :=
  { user := "0xuser", amount := 1, quoteId := "q1", networkId := "bsc",
    txHash := "0xdeposit" }

/-- An ethers environment in which everything succeeds but the
confirmation `wait(1)` never settles, so the 80-second timer wins the
race. -/
def fixtureEvmTimeout : EvmContractService.EvmCallEnv :=
  { phoenixConfig := .ok (),
    feeGasPrice := .ok (some 5000000000), send := .ok "0xhash",
    wait := { settlesAt := none,
              outcome := .error { message := "unreachable", reason := none } } }

/-- An ethers environment in which the transaction is mined inside the
timeout bound but reverts (receipt status 0). -/
def fixtureEvmRevert : EvmContractService.EvmCallEnv :=
  { phoenixConfig := .ok (),
    feeGasPrice := .ok (some 5000000000), send := .ok "0xhash",
    wait := { settlesAt := some 30000,
              outcome := .ok { status := 0, gasUsed := 21000,
                               gasPrice := 5000000000, blockNumber := 7 } } }

/-- The execution environment whose contract-call leg is the composed
`EvmContractService.executeTrade` under the timed-out wait. -/
def fixtureEnvTimeout : Env :=
  { fixtureEnvPayoutFails with
    contractCall := EvmContractService.executeTrade "q1" fixtureEvmTimeout }

end TradeExecutionService

namespace DepositMonitorWorker

inductive DepositStatus
  | PENDING_DEPOSIT
  | CONFIRMED
  deriving DecidableEq

/-- A `BitcoinDepositAddress` row; `fromNetworkId` is read off the included
quote for explorer routing (`addr.quote.fromNetworkId`). -/
structure BitcoinDepositAddress where
  id : ℕ
  address : String
  status : DepositStatus
  receivedTxHash : Option String := none
  receivedAmount : Option ℚ := none
  quoteId : String
  fromNetworkId : String
  deriving DecidableEq

/-- One output of an explorer transaction. -/
structure TxOut where
  scriptpubkey_address : String
  value : ℚ
  deriving DecidableEq

/-- An explorer transaction for an address (`tx.status.confirmed`,
`tx.confirmations` which esplora may omit — hence the `|| 1` default — and
the outputs). -/
structure BtcTx where
  txid : String
  confirmed : Bool
  confirmations : Option ℕ
  vout : List TxOut
  deriving DecidableEq

/-- The deposit-address table. -/
structure MonitorDb where
  addresses : List BitcoinDepositAddress
  deriving DecidableEq

/-- The monitor's external collaborators: explorer routing per source
network and the per-address recent-transactions endpoint (stable within
the modelled cycles). -/
structure MonitorEnv where
  explorerOf : String → Option String
  txsFor : String → List BtcTx

/-- The monitor's observable effects in program order: the
deposit-confirmed broadcast, the CONFIRMED row update, and the
`initiateSwap` invocation on the UTXO execution service. -/
inductive MonitorEffect
  | notifyDepositConfirmed (quoteId : String) (txid : String) (amountSat : ℚ)
  | updateConfirmed (addrId : ℕ) (txid : String) (amountBtc : ℚ)
  | initiateSwap (quoteId : String) (amountBtc : ℚ)
  deriving DecidableEq

def REQUIRED_CONFIRMATIONS : ℕ := 1

/-- `calculateReceivedAmount` (lines 157-165): the sum of the values of all
outputs paying exactly the monitored address. -/
def calculateReceivedAmount (tx : BtcTx) (myAddress : String) : ℚ :=
  ((tx.vout.filter (fun o => o.scriptpubkey_address == myAddress)).map TxOut.value).sum

/-- The transaction loop of `processAddress` (lines 99-133): the first
transaction that is confirmed, has at least the required confirmations
(defaulting to 1 when the field is absent), and credits a positive amount
to the address. -/
def firstQualifying (myAddress : String) : List BtcTx → Option (BtcTx × ℚ)
  | [] => none
  | tx :: rest =>
    if tx.confirmed ∧ REQUIRED_CONFIRMATIONS ≤ tx.confirmations.getD 1 then
      let receivedAmountSatoshi := calculateReceivedAmount tx myAddress
      if 0 < receivedAmountSatoshi then some (tx, receivedAmountSatoshi)
      else firstQualifying myAddress rest
    else firstQualifying myAddress rest

/-- The CONFIRMED row update of `processAddress` (lines 117-124), applied to
the row with the given id (`receivedAmount` is stored in BTC —
satoshis / 1e8). -/
def confirmUpdate (db : MonitorDb) (addrId : ℕ) (tx : BtcTx) (amountSat : ℚ) :
    MonitorDb :=
  { addresses := db.addresses.map (fun b =>
      if b.id == addrId then
        { b with status := .CONFIRMED, receivedTxHash := some tx.txid,
                 receivedAmount := some (amountSat / 100000000) }
      else b) }

/-- `processAddress` (lines 90-138): explorer routing, the first qualifying
transaction, then — in this order — the DEPOSIT_CONFIRMED broadcast, the
CONFIRMED row update, and the awaited `initiateSwap`, after which the
address's processing returns. -/
def processAddress (db : MonitorDb) (env : MonitorEnv)
    (addr : BitcoinDepositAddress) : MonitorDb × List MonitorEffect :=
  match env.explorerOf addr.fromNetworkId with
  | none => (db, [])
  | some _ =>
    match firstQualifying addr.address (env.txsFor addr.address) with
    | none => (db, [])
    | some (tx, amountSat) =>
      (confirmUpdate db addr.id tx amountSat,
       [.notifyDepositConfirmed addr.quoteId tx.txid amountSat,
        .updateConfirmed addr.id tx.txid (amountSat / 100000000),
        .initiateSwap addr.quoteId (amountSat / 100000000)])

/-- One step of `groupAddressesByNetwork`s `reduce` (lines 143-152):
accumulate the address under its network key, keeping key insertion order
(the network ids are non-numeric strings, so JS object enumeration follows
insertion order). -/
def insertGroup :
    List (String × List BitcoinDepositAddress) → BitcoinDepositAddress →
      List (String × List BitcoinDepositAddress)
  | [], a => [(a.fromNetworkId, [a])]
  | (k, g) :: rest, a =>
    if k == a.fromNetworkId then (k, g ++ [a]) :: rest
    else (k, g) :: insertGroup rest a

def groupAddressesByNetwork (addrs : List BitcoinDepositAddress) :
    List (String × List BitcoinDepositAddress) :=
  addrs.foldl insertGroup []

/-- The nested for-loops of `checkPendingDeposits` (lines 74-78) flattened:
the groups are visited in key order and each group's addresses in order. -/
def flattenGroups (gs : List (String × List BitcoinDepositAddress)) :
    List BitcoinDepositAddress :=
  gs.foldr (fun g acc => g.2 ++ acc) []

/-- Sequential processing of the listed addresses, threading the store and
concatenating the effect traces (each `processAddress` is awaited). -/
def processList (env : MonitorEnv) :
    MonitorDb → List BitcoinDepositAddress → MonitorDb × List MonitorEffect
  | db, [] => (db, [])
  | db, a :: rest =>
    let p := processAddress db env a
    let q := processList env p.1 rest
    (q.1, p.2 ++ q.2)

/-- One cycle of `checkPendingDeposits` (lines 50-85): list the
PENDING_DEPOSIT rows, group them by source network, and process each
address of each group; the `isChecking` single-flight guard keeps cycles
from overlapping, so consecutive cycles compose sequentially. -/
def checkPendingDeposits (db : MonitorDb) (env : MonitorEnv) :
    MonitorDb × List MonitorEffect :=
  let pendingAddresses :=
    db.addresses.filter (fun a => a.status == DepositStatus.PENDING_DEPOSIT)
  processList env db (flattenGroups (groupAddressesByNetwork pendingAddresses))

/-- `n` consecutive monitor cycles. -/
def runCycles (env : MonitorEnv) : ℕ → MonitorDb → MonitorDb × List MonitorEffect
  | 0, db => (db, [])
  | n+1, db =>
    let p := checkPendingDeposits db env
    let q := runCycles env n p.1
    (q.1, p.2 ++ q.2)

/-- Whether `processAddress` would fire for this address: explorer known
and a qualifying transaction present. -/
def qualifiesB (env : MonitorEnv) (a : BitcoinDepositAddress) : Bool :=
  (env.explorerOf a.fromNetworkId).isSome &&
    (firstQualifying a.address (env.txsFor a.address)).isSome

/-- The number of `initiateSwap` invocations for a given quote id in an
effect trace. -/
def countTriggers (effs : List MonitorEffect) (qid : String) : ℕ :=
  effs.countP (fun e =>
    match e with
    | .initiateSwap q _ => q == qid
    | _ => false)

/-- The pending addresses of the store that would fire for this quote id. -/
def qualCount (db : MonitorDb) (env : MonitorEnv) (qid : String) : ℕ :=
  db.addresses.countP (fun a =>
    a.status == DepositStatus.PENDING_DEPOSIT && qualifiesB env a && a.quoteId == qid)

/-- The CONFIRMED version of a row as written by the monitor. -/
def confirmedVersion (a : BitcoinDepositAddress) (tx : BtcTx) (amountSat : ℚ) :
    BitcoinDepositAddress :=
  { a with status := .CONFIRMED, receivedTxHash := some tx.txid,
           receivedAmount := some (amountSat / 100000000) }

/-- The effect trace of processing one address (it does not depend on the
store, only on the address row and the explorer responses). -/
def traceOf (env : MonitorEnv) (a : BitcoinDepositAddress) : List MonitorEffect :=
  (processAddress { addresses := [] } env a).2

/-- The store update of processing one address, pointwise on rows. -/
def applyUpd (env : MonitorEnv) (a b : BitcoinDepositAddress) :
    BitcoinDepositAddress :=
  match env.explorerOf a.fromNetworkId with
  | none => b
  | some _ =>
    match firstQualifying a.address (env.txsFor a.address) with
    | none => b
    | some (tx, amountSat) =>
      if b.id == a.id then
        { b with status := .CONFIRMED, receivedTxHash := some tx.txid,
                 receivedAmount := some (amountSat / 100000000) }
      else b

/-- The accumulated store update of processing a list of addresses. -/
def chainUpd (env : MonitorEnv) (P : List BitcoinDepositAddress)
    (b : BitcoinDepositAddress) : BitcoinDepositAddress :=
  P.foldl (fun x a => applyUpd env a x) b

/-- The PENDING_DEPOSIT rows of a store. -/
def pendingOf (db : MonitorDb) : List BitcoinDepositAddress :=
  db.addresses.filter (fun a => a.status == DepositStatus.PENDING_DEPOSIT)

/-- The order in which one cycle visits the pending rows. -/
def processOrder (db : MonitorDb) : List BitcoinDepositAddress :=
  flattenGroups (groupAddressesByNetwork (pendingOf db))

/-- A pending deposit-address fixture. -/
def fixtureAddr : BitcoinDepositAddress :=
  { id := 0, address := "tb1qaddr", status := .PENDING_DEPOSIT,
    quoteId := "q1", fromNetworkId := "btc_testnet" }

/-- A confirmed transaction paying the fixture address on two outputs
belonging to different addresses. -/
def fixtureTx : BtcTx :=
  { txid := "txid1", confirmed := true, confirmations := some 2,
    vout := [{ scriptpubkey_address := "tb1qaddr", value := 70000 },
             { scriptpubkey_address := "tb1qother", value := 5 }] }

/-- A monitor environment serving the fixture transaction. -/
def fixtureMonitorEnv : MonitorEnv :=
  { explorerOf := fun _ => some "https://esplora/",
    txsFor := fun ad => if ad = "tb1qaddr" then [fixtureTx] else [] }

/-- A store holding only the fixture address. -/
def fixtureMonitorDb : MonitorDb := { addresses := [fixtureAddr] }

end DepositMonitorWorker

-- ===== THEOREMS =====

namespace QuotingService

/-- A successful `buildEvmReceivingOptions` on a nonempty network list starts
with the first network's option. -/
theorem buildEvmReceivingOptions_ok_cons {toA : String} {fAB rd : ℚ}
    {n : DestNetwork} {rest : List DestNetwork}
    (hd : getConversionRate n.destGasCost.asset toA = .ok rd) :
    ∀ os, buildEvmReceivingOptions toA fAB (n :: rest) = .ok os →
      ∃ tail, os =
        ({ networkId := n.networkId,
           finalAmount := round8 (fAB - rd * n.destGasCost.cost) } : ReceivingOption) :: tail := by
  intro os h
  simp only [buildEvmReceivingOptions, hd, bind, Except.bind] at h
  cases hrest : buildEvmReceivingOptions toA fAB rest with
  | error e => rw [hrest] at h; cases h
  | ok os' => rw [hrest] at h; cases h; exact ⟨os', rfl⟩

/-- C1 (counterexample): a successfully created Quote whose persisted
`finalReceiveAmount` differs from
`grossReceiveAmount - exchangeFee - ourFee - gasCosts` by more than 6
destination-asset units (far beyond the stored decimal precision): the
persisted `gasCosts` is the source gas cost in its own asset (0.001 ETH, not
converted to USDT), and the destination network fee is subtracted from
`finalReceiveAmount` without appearing in any persisted fee field. -/
theorem C1_counterexample :
    getQuotePersist 0 0 "q" "USDT" 100
        ⟨1/5, 1/10, ⟨1/1000, "ETH"⟩⟩
        (.evm [⟨"net1", ⟨1/2000, "ETH"⟩⟩]) =
      .ok ⟨"q", 0, 300000, 100, 373/4, 1/5, 1/10, 1/1000⟩ ∧
    ¬ ((373 : ℚ)/4 = 100 - 1/5 - 1/10 - 1/1000) ∧
    (100 - 1/5 - 1/10 - 1/1000) - (373 : ℚ)/4 > 6 := by
  refine ⟨?_, by norm_num, by norm_num⟩
  simp +decide [getQuotePersist, finalAmountBase, convertFeesToToAsset,
    getConversionRate, getPriceInUsd, buildFinalResponse, buildEvmReceivingOptions,
    round8, bind, Except.bind, pure, Except.pure]
  norm_num

/-- C1 (amended): for every successfully created Quote the persisted
`finalReceiveAmount` equals `grossReceiveAmount - exchangeFee - ourFee -
(source gas cost converted to the destination asset) - (destination network
fee in the destination asset)`, rounded to 8 decimals; the persisted
`gasCosts` field stores the source gas cost in the gas asset's own units. -/
theorem C1_claim (tB tI : ℕ) (id toA : String) (gross : ℚ)
    (fees : QuoteFeeDetails) (n : DestNetwork) (rest : List DestNetwork)
    (feeBtc rs rd : ℚ) (q q' : PersistedQuote)
    (hs : getConversionRate fees.sourceGasCost.asset toA = .ok rs)
    (hd : getConversionRate n.destGasCost.asset toA = .ok rd) :
    (getQuotePersist tB tI id toA gross fees (.evm (n :: rest)) = .ok q →
      q.finalReceiveAmount =
        round8 (gross - fees.exchangeFee - fees.ourFee
          - rs * fees.sourceGasCost.cost - rd * n.destGasCost.cost) ∧
      q.gasCosts = fees.sourceGasCost.cost ∧
      q.grossReceiveAmount = gross ∧
      q.exchangeFee = fees.exchangeFee ∧ q.ourFee = fees.ourFee) ∧
    (getQuotePersist tB tI id toA gross fees (.btc feeBtc) = .ok q' →
      q'.finalReceiveAmount =
        round8 (gross - fees.exchangeFee - fees.ourFee
          - rs * fees.sourceGasCost.cost - feeBtc) ∧
      q'.gasCosts = fees.sourceGasCost.cost) := by
  constructor
  · intro h
    simp only [getQuotePersist, finalAmountBase, convertFeesToToAsset, hs,
      buildFinalResponse, bind, Except.bind, pure, Except.pure] at h
    set fAB := gross - (fees.exchangeFee + fees.ourFee + rs * fees.sourceGasCost.cost) with hfAB
    cases hos : buildEvmReceivingOptions toA fAB (n :: rest) with
    | error e =>
      rw [hos] at h
      cases h
    | ok os =>
      obtain ⟨tail, rfl⟩ := buildEvmReceivingOptions_ok_cons hd os hos
      rw [hos] at h
      cases h
      refine ⟨?_, rfl, rfl, rfl, rfl⟩
      show round8 _ = round8 _
      congr 1
      rw [hfAB]
      ring
  · intro h
    simp only [getQuotePersist, finalAmountBase, convertFeesToToAsset, hs,
      buildFinalResponse, bind, Except.bind, pure, Except.pure] at h
    cases h
    refine ⟨?_, rfl⟩
    show round8 _ = round8 _
    congr 1
    ring

/-- C9 (counterexample): `expiresAt` is computed from `Date.now()` at quote
construction while `createdAt` is filled by the database clock at row
insertion, so when one second elapses between the two (address allocation
and gas-estimate calls are awaited in between) the persisted difference is
299000 ms, not the configured 300000 ms window. -/
theorem C9_counterexample :
    getQuotePersist 0 1000 "q" "BTC" 100 ⟨0, 0, ⟨0, "BTC"⟩⟩ (.btc 0) =
      .ok ⟨"q", 1000, 300000, 100, 100, 0, 0, 0⟩ ∧
    (300000 : ℕ) - 1000 ≠ 300000 := by
  refine ⟨?_, by norm_num⟩
  simp +decide [getQuotePersist, finalAmountBase, convertFeesToToAsset,
    getConversionRate, getPriceInUsd, buildFinalResponse, round8,
    bind, Except.bind, pure, Except.pure]
  norm_num

/-- C9 (amended): every persisted Quote has `expiresAt` equal to the
quote-construction timestamp plus the configured window — 300000 ms on the
unified `buildFinalResponse` path and 60000 ms on the EVM-only
`buildEvmResponse` path — while `createdAt` is the separate insertion
timestamp, so `expiresAt - createdAt` equals the window exactly only when
the insertion happens at the same millisecond as construction. -/
theorem C9_claim (tB tI : ℕ) (id toA : String) (gross fAB : ℚ)
    (fees : QuoteFeeDetails) (dest : DestSpec) (nets : List DestNetwork)
    (q q' : PersistedQuote) :
    (getQuotePersist tB tI id toA gross fees dest = .ok q →
      q.expiresAt = tB + 300000 ∧ q.createdAt = tI ∧
      (tI = tB → q.expiresAt - q.createdAt = 300000)) ∧
    (buildEvmResponsePersist tB tI id toA gross fees fAB nets = .ok q' →
      q'.expiresAt = tB + 60000 ∧ q'.createdAt = tI ∧
      (tI = tB → q'.expiresAt - q'.createdAt = 60000)) := by
  constructor
  · intro h
    simp only [getQuotePersist, finalAmountBase, convertFeesToToAsset,
      bind, Except.bind, pure, Except.pure] at h
    cases hr : getConversionRate fees.sourceGasCost.asset toA with
    | error e => rw [hr] at h; cases h
    | ok rs =>
      rw [hr] at h
      cases dest with
      | evm nets' =>
        simp only [buildFinalResponse] at h
        cases hos : buildEvmReceivingOptions toA
            (gross - (fees.exchangeFee + fees.ourFee + rs * fees.sourceGasCost.cost)) nets' with
        | error e => rw [hos] at h; cases h
        | ok os =>
          rw [hos] at h
          cases os with
          | nil => cases h
          | cons o tail =>
            cases h
            refine ⟨rfl, rfl, fun ht => ?_⟩
            simp [ht]
      | btc feeBtc =>
        simp only [buildFinalResponse] at h
        cases h
        refine ⟨rfl, rfl, fun ht => ?_⟩
        simp [ht]
  · intro h
    simp only [buildEvmResponsePersist, bind, Except.bind, pure, Except.pure] at h
    cases hos : buildEvmReceivingOptions toA fAB nets with
    | error e => rw [hos] at h; cases h
    | ok os =>
      rw [hos] at h
      cases os with
      | nil => cases h
      | cons o tail =>
        cases h
        refine ⟨rfl, rfl, fun ht => ?_⟩
        simp [ht]

/-- C9 witness: the amended statement instantiated at a concrete quote built
and inserted at the same millisecond. -/
theorem C9_claim_witness :
    (300000 : ℕ) + 300000 - 300000 = 300000 := by
  have h := (C9_claim 300000 300000 "q" "BTC" 100 0 ⟨0, 0, ⟨0, "BTC"⟩⟩
      (.btc 0) [] ⟨"q", 300000, 600000, 100, 100, 0, 0, 0⟩
      ⟨"q", 300000, 600000, 100, 100, 0, 0, 0⟩).1
      (by
        simp +decide [getQuotePersist, finalAmountBase, convertFeesToToAsset,
          getConversionRate, getPriceInUsd, buildFinalResponse, round8,
          bind, Except.bind, pure, Except.pure]
        norm_num)
  exact h.2.2 rfl

/-- C1 witness: the amended formula evaluated on the counterexample inputs. -/
theorem C1_claim_witness :
    (373/4 : ℚ) =
      round8 (100 - 1/5 - 1/10 - 4300 * (1/1000) - 4300 * (1/2000)) := by
  have h := (C1_claim 0 0 "q" "USDT" 100 ⟨1/5, 1/10, ⟨1/1000, "ETH"⟩⟩
      ⟨"net1", ⟨1/2000, "ETH"⟩⟩ [] 0 4300 4300
      ⟨"q", 0, 300000, 100, 373/4, 1/5, 1/10, 1/1000⟩
      ⟨"q", 0, 300000, 100, 373/4, 1/5, 1/10, 1/1000⟩
      (by simp +decide [getConversionRate, getPriceInUsd])
      (by simp +decide [getConversionRate, getPriceInUsd])).1
      (by
        simp +decide [getQuotePersist, finalAmountBase, convertFeesToToAsset,
          getConversionRate, getPriceInUsd, buildFinalResponse,
          buildEvmReceivingOptions, round8, bind, Except.bind, pure, Except.pure]
        norm_num)
  exact h.1

end QuotingService

namespace EvmContractService

/-- Removing the occurrences of a character shortens a list by their count. -/
theorem length_filter_ne (c : Char) (l : List Char) :
    (l.filter (fun x => x ≠ c)).length + l.count c = l.length := by
  induction l with
  | nil => rfl
  | cons a as ih =>
    by_cases hac : a = c
    · simp only [List.filter_cons, List.count_cons, hac] at ih ⊢
      simp at ih ⊢
      omega
    · simp only [List.filter_cons, List.count_cons, hac] at ih ⊢
      simp [hac] at ih ⊢
      omega

/-- C10: the settlement call encodes only the first 31 characters of the
quote id as the on-chain bytes32 identifier.  Quote ids are dash-stripped
UUIDs of length 32, so the encoded identifier never corresponds to the full
stored id, and any two ids that agree on their first 31 characters yield the
same on-chain identifier. -/
theorem C10_claim (uuid q1 q2 : String) :
    (uuid.length = 36 → uuid.data.count '-' = 4 →
      (QuotingService.mkQuoteId uuid).length = 32) ∧
    (q1.length = 32 → substringTo q1 31 ≠ q1) ∧
    (substringTo q1 31 = substringTo q2 31 → quoteIdBytes32 q1 = quoteIdBytes32 q2) := by
  refine ⟨fun hlen hcount => ?_, fun hlen h => ?_, fun h => ?_⟩
  · show (uuid.data.filter (fun c => c ≠ '-')).length = 32
    have hf := length_filter_ne '-' uuid.data
    rw [hcount] at hf
    have h36 : uuid.data.length = 36 := hlen
    omega
  · have hdata : q1.data.take 31 = q1.data := congrArg String.data h
    have hlen31 : (q1.data.take 31).length = q1.data.length := by rw [hdata]
    rw [List.length_take] at hlen31
    have h32 : q1.data.length = 32 := hlen
    omega
  · unfold quoteIdBytes32
    rw [h]

/-- C10 witness: a concrete canonical UUID and two concrete 32-character ids
sharing a 31-character prefix. -/
theorem C10_claim_witness :
    (QuotingService.mkQuoteId "00000000-0000-4000-8000-000000000000").length = 32 ∧
    substringTo "0000000000000000000000000000000a" 31 ≠
      "0000000000000000000000000000000a" ∧
    quoteIdBytes32 "0000000000000000000000000000000a" =
      quoteIdBytes32 "0000000000000000000000000000000b" := by
  obtain ⟨h1, h2, h3⟩ := C10_claim "00000000-0000-4000-8000-000000000000"
    "0000000000000000000000000000000a" "0000000000000000000000000000000b"
  exact ⟨h1 (by decide) (by decide), h2 (by decide), h3 (by decide)⟩

end EvmContractService

namespace BitcoinHDWalletService

/-- C5 (counterexample): two concurrent `getNewAddress` calls, interleaved
at the awaited database write, both read the same in-memory cursor and
return the same address and index 0; the persisted cursor ends at 1, not at
the starting value plus 2. -/
theorem C5_counterexample :
    (twoConcurrentCalls ⟨0, 0⟩).2.1 = (twoConcurrentCalls ⟨0, 0⟩).2.2 ∧
    (twoConcurrentCalls ⟨0, 0⟩).2.1.index = 0 ∧
    (twoConcurrentCalls ⟨0, 0⟩).2.2.index = 0 ∧
    (twoConcurrentCalls ⟨0, 0⟩).1.db = 1 ∧
    (1 : ℕ) ≠ 0 + 2 :=
  ⟨rfl, rfl, rfl, rfl, by decide⟩

/-- Closed form of N sequential `getNewAddress` calls from a consistent
cursor. -/
theorem runSequential_eq (m : ℕ) : ∀ j : ℕ,
    runSequential m ⟨j, j⟩ =
      (⟨j + m, j + m⟩,
       (List.range' j m).map (fun k => ⟨deriveAddress k, k⟩)) := by
  induction m with
  | zero => intro j; rfl
  | succ k ih =>
    intro j
    have hp : getNewAddress ⟨j, j⟩ = (⟨j + 1, j + 1⟩, ⟨deriveAddress j, j⟩) := rfl
    simp only [runSequential, hp, ih (j + 1), List.range']
    have hjk : j + 1 + k = j + (k + 1) := by omega
    rw [hjk, List.map_cons]

/-- C5 (amended): `getNewAddress` persists `index + 1` before returning a
result (the save precedes the return, and the returned index is the
pre-increment cursor), and N sequential calls starting from a consistent
cursor return the N distinct, contiguous indices `i, i+1, …, i+N-1`,
leaving the persisted cursor at `i + N`; under concurrent interleaving,
however, two calls may both read the same cursor (it is advanced only after
the awaited save) and return the same address. -/
theorem C5_claim (s : WalletState) (n i : ℕ) :
    ((getNewAddress s).1.db = (getNewAddress s).2.index + 1 ∧
     (getNewAddress s).2.index = s.mem ∧
     (getNewAddress s).2.address = deriveAddress s.mem ∧
     (getNewAddress s).1.mem = s.mem + 1) ∧
    ((runSequential n ⟨i, i⟩).1.db = i + n ∧
     (runSequential n ⟨i, i⟩).1.mem = i + n ∧
     (runSequential n ⟨i, i⟩).2.map NewAddressResult.index = List.range' i n ∧
     ((runSequential n ⟨i, i⟩).2.map NewAddressResult.index).Nodup) := by
  refine ⟨⟨rfl, rfl, rfl, rfl⟩, ?_⟩
  rw [runSequential_eq n i]
  have hmap : (List.map (fun k => (⟨deriveAddress k, k⟩ : NewAddressResult))
      (List.range' i n)).map NewAddressResult.index = List.range' i n := by
    rw [List.map_map]
    exact List.map_id _
  refine ⟨rfl, rfl, hmap, ?_⟩
  rw [hmap]
  exact List.nodup_range' i n

end BitcoinHDWalletService

namespace BitcoinPayoutService

/-- Characterization of the greedy coin-selection loop: starting from a
running count and total, it selects a prefix of the UTXO list; the
accumulated total is the sum of the selected values; it stops either because
the list is exhausted or at the first input count whose recomputed fee
estimate is covered; and every strictly earlier nonempty prefix was
insufficient. -/
theorem selectLoop_spec (amt fr : ℚ) :
    ∀ (l : List Utxo) (count : ℕ) (total : ℚ),
      count ≤ (selectLoop amt fr l count total).1 ∧
      (selectLoop amt fr l count total).1 ≤ count + l.length ∧
      (selectLoop amt fr l count total).2 =
        total + ((l.take ((selectLoop amt fr l count total).1 - count)).map Utxo.value).sum ∧
      ((selectLoop amt fr l count total).1 = count + l.length ∨
        amt + (estimateTxSize (selectLoop amt fr l count total).1 2 : ℚ) * fr ≤
          (selectLoop amt fr l count total).2) ∧
      (∀ j, count < j → j < (selectLoop amt fr l count total).1 →
        total + ((l.take (j - count)).map Utxo.value).sum <
          amt + (estimateTxSize j 2 : ℚ) * fr) := by
  intro l
  induction l with
  | nil =>
    intro count total
    refine ⟨le_refl _, by simp [selectLoop], by simp [selectLoop], ?_, ?_⟩
    · left; simp [selectLoop]
    · intro j h1 h2
      simp [selectLoop] at h2
      omega
  | cons u rest ih =>
    intro count total
    by_cases hbreak : amt + (estimateTxSize (count + 1) 2 : ℚ) * fr ≤ total + u.value
    · have hsel : selectLoop amt fr (u :: rest) count total = (count + 1, total + u.value) := by
        simp [selectLoop, hbreak]
      rw [hsel]
      refine ⟨by omega, by simp only [List.length_cons]; omega, ?_, ?_, ?_⟩
      · simp
      · right; simpa using hbreak
      · intro j h1 h2; omega
    · have hsel : selectLoop amt fr (u :: rest) count total =
          selectLoop amt fr rest (count + 1) (total + u.value) := by
        simp [selectLoop, hbreak]
      rw [hsel]
      obtain ⟨ih1, ih2, ih3, ih4, ih5⟩ := ih (count + 1) (total + u.value)
      refine ⟨by omega, by simp only [List.length_cons]; omega, ?_, ?_, ?_⟩
      · rw [ih3]
        have htake : (u :: rest).take ((selectLoop amt fr rest (count + 1) (total + u.value)).1 - count) =
            u :: rest.take ((selectLoop amt fr rest (count + 1) (total + u.value)).1 - (count + 1)) := by
          have h1 : (selectLoop amt fr rest (count + 1) (total + u.value)).1 - count =
              ((selectLoop amt fr rest (count + 1) (total + u.value)).1 - (count + 1)) + 1 := by
            omega
          rw [h1, List.take_succ_cons]
        rw [htake]
        simp
        ring
      · rcases ih4 with h | h
        · left; simp [h]; omega
        · right; exact h
      · intro j hj1 hj2
        by_cases hjc : j = count + 1
        · subst hjc
          have : (u :: rest).take (count + 1 - count) = [u] := by
            simp
          rw [this]
          simp
          linarith [lt_of_not_le hbreak]
        · have hj1' : count + 1 < j := by omega
          have := ih5 j hj1' hj2
          have htake : (u :: rest).take (j - count) =
              u :: rest.take (j - (count + 1)) := by
            have h1 : j - count = (j - (count + 1)) + 1 := by omega
            rw [h1, List.take_succ_cons]
          rw [htake]
          simp at this ⊢
          linarith

/-- C6: with no treasury UTXOs, `sendBitcoin` fails with the
no-spendable-funds error before fetching a fee rate or broadcasting;
otherwise it greedily accumulates inputs in the order returned, recomputing
the fee estimate as the input count grows, and either succeeds with
`accumulated >= amount + estimatedFee(inputCount, 2 outputs)` (every shorter
nonempty prefix being insufficient) or fails with the insufficient-funds
error without broadcasting. -/
theorem C6_claim (recipient : String) (amountInBtc feeRate : ℚ) (utxos : List Utxo) :
    (utxos = [] →
      sendBitcoin recipient amountInBtc utxos feeRate =
        (.error "Payout wallet has no spendable UTXOs.",
         [PayoutEffect.fetchUtxos treasuryAddress])) ∧
    (∀ r effs, sendBitcoin recipient amountInBtc utxos feeRate = (.ok r, effs) →
      (jsRound (amountInBtc * 100000000) : ℚ) +
          (estimateTxSize r.inputCount 2 : ℚ) * feeRate ≤ r.totalInputSatoshi ∧
      r.inputCount ≤ utxos.length ∧
      r.totalInputSatoshi = ((utxos.take r.inputCount).map Utxo.value).sum ∧
      (∀ j, 0 < j → j < r.inputCount →
        ((utxos.take j).map Utxo.value).sum <
          (jsRound (amountInBtc * 100000000) : ℚ) +
            (estimateTxSize j 2 : ℚ) * feeRate)) ∧
    (∀ e effs, sendBitcoin recipient amountInBtc utxos feeRate = (.error e, effs) →
      PayoutEffect.broadcastTx ∉ effs) := by
  refine ⟨fun hemp => ?_, fun r effs h => ?_, fun e effs h => ?_⟩
  · subst hemp
    simp [sendBitcoin]
  · simp only [sendBitcoin] at h
    by_cases hemp : utxos = []
    · simp [hemp] at h
    · simp only [hemp, if_false] at h
      set amt : ℚ := (jsRound (amountInBtc * 100000000) : ℚ) with hamt
      obtain ⟨s1, s2, s3, s4, s5⟩ := selectLoop_spec amt feeRate utxos 0 0
      by_cases hins : (selectLoop amt feeRate utxos 0 0).2 <
          amt + (estimateTxSize (selectLoop amt feeRate utxos 0 0).1 2 : ℚ) * feeRate
      · simp only [hins, if_true] at h
        cases h
      · simp only [hins, if_false] at h
        rw [Prod.mk.injEq] at h
        obtain ⟨h1, h2⟩ := h
        rw [Except.ok.injEq] at h1
        subst h1
        push_neg at hins
        refine ⟨by simpa using hins, by simpa using s2, by simpa using s3, ?_⟩
        intro j hj0 hjlt
        have := s5 j (by omega) (by simpa using hjlt)
        simpa using this
  · simp only [sendBitcoin] at h
    by_cases hemp : utxos = []
    · simp only [hemp, if_true] at h
      rw [Prod.mk.injEq] at h
      obtain ⟨h1, h2⟩ := h
      subst h2
      simp
    · simp only [hemp, if_false] at h
      set amt : ℚ := (jsRound (amountInBtc * 100000000) : ℚ) with hamt
      by_cases hins : (selectLoop amt feeRate utxos 0 0).2 <
          amt + (estimateTxSize (selectLoop amt feeRate utxos 0 0).1 2 : ℚ) * feeRate
      · simp only [hins, if_true] at h
        rw [Prod.mk.injEq] at h
        obtain ⟨h1, h2⟩ := h
        subst h2
        simp
      · simp only [hins, if_false] at h
        rw [Prod.mk.injEq] at h
        obtain ⟨h1, h2⟩ := h
        cases h1

/-- C6 witness: the empty-treasury failure and the success bound on a
concrete one-UTXO treasury. -/
theorem C6_claim_witness :
    sendBitcoin "r" (1/10000) [] 1 =
      (.error "Payout wallet has no spendable UTXOs.",
       [PayoutEffect.fetchUtxos treasuryAddress]) ∧
    (jsRound ((1/10000 : ℚ) * 100000000) : ℚ) + (estimateTxSize 1 2 : ℚ) * 1 ≤ 10687 := by
  refine ⟨(C6_claim "r" (1/10000) 1 []).1 rfl, ?_⟩
  have h := (C6_claim "r" (1/10000) 1 [⟨"tx0", 0, 10687⟩]).2.1
      ⟨1, 10687, [⟨"r", 10000⟩], 546⟩
      [PayoutEffect.fetchUtxos treasuryAddress, PayoutEffect.fetchFeeRate,
       PayoutEffect.broadcastTx]
      (by norm_num [sendBitcoin, selectLoop, jsRound, estimateTxSize])
  exact h.1

/-- C7 (counterexample): with a change remainder of exactly 546 satoshis the
broadcast transaction has no change output (the condition is the strict
`changeAmount > 546`), and with 545 it has none either; the claim's first
half is false on the code. -/
theorem C7_counterexample :
    (sendBitcoin "r" (1/10000) [⟨"tx0", 0, 10687⟩] 1).1 =
      .ok ⟨1, 10687, [⟨"r", 10000⟩], 546⟩ ∧
    (sendBitcoin "r" (1/10000) [⟨"tx0", 0, 10686⟩] 1).1 =
      .ok ⟨1, 10686, [⟨"r", 10000⟩], 545⟩ := by
  constructor <;> norm_num [sendBitcoin, selectLoop, jsRound, estimateTxSize]

/-- C7 (amended): the dust comparison is strict — a change remainder
strictly above 546 satoshis (547 and up) produces a change output, while a
remainder of 546 or below (including 545) is absorbed into the fee and
produces none. -/
theorem C7_claim (recipient : String) (amountInBtc feeRate : ℚ)
    (utxos : List Utxo) (r : PayoutResult) (effs : List PayoutEffect)
    (h : sendBitcoin recipient amountInBtc utxos feeRate = (.ok r, effs)) :
    r.changeAmount = r.totalInputSatoshi - (jsRound (amountInBtc * 100000000) : ℚ) -
      (estimateTxSize r.inputCount 2 : ℚ) * feeRate ∧
    (546 < r.changeAmount →
      r.outputs = [⟨recipient, (jsRound (amountInBtc * 100000000) : ℚ)⟩,
                   ⟨treasuryAddress, r.changeAmount⟩]) ∧
    (r.changeAmount ≤ 546 →
      r.outputs = [⟨recipient, (jsRound (amountInBtc * 100000000) : ℚ)⟩]) := by
  simp only [sendBitcoin] at h
  by_cases hemp : utxos = []
  · simp [hemp] at h
  · simp only [hemp, if_false] at h
    set amt : ℚ := (jsRound (amountInBtc * 100000000) : ℚ) with hamt
    by_cases hins : (selectLoop amt feeRate utxos 0 0).2 <
        amt + (estimateTxSize (selectLoop amt feeRate utxos 0 0).1 2 : ℚ) * feeRate
    · simp only [hins, if_true] at h
      rw [Prod.mk.injEq] at h
      obtain ⟨h1, h2⟩ := h
      cases h1
    · simp only [hins, if_false] at h
      rw [Prod.mk.injEq] at h
      obtain ⟨h1, h2⟩ := h
      rw [Except.ok.injEq] at h1
      subst h1
      refine ⟨rfl, fun hdust => ?_, fun hdust => ?_⟩
      · simp only at hdust ⊢
        rw [if_pos hdust]
      · simp only at hdust ⊢
        rw [if_neg (not_lt.mpr hdust)]

/-- C7 witness: a concrete remainder of 547 creates the change output. -/
theorem C7_claim_witness :
    (⟨1, 10688, [⟨"r", 10000⟩, ⟨treasuryAddress, 547⟩], 547⟩ : PayoutResult).outputs =
      [⟨"r", (jsRound ((1/10000 : ℚ) * 100000000) : ℚ)⟩, ⟨treasuryAddress, 547⟩] := by
  have h := C7_claim "r" (1/10000) 1 [⟨"tx0", 0, 10688⟩]
      ⟨1, 10688, [⟨"r", 10000⟩, ⟨treasuryAddress, 547⟩], 547⟩
      [PayoutEffect.fetchUtxos treasuryAddress, PayoutEffect.fetchFeeRate,
       PayoutEffect.broadcastTx]
      (by norm_num [sendBitcoin, selectLoop, jsRound, estimateTxSize])
  exact h.2.1 (by norm_num)

end BitcoinPayoutService

namespace TradeExecutionService

/-- `tradeUpdate` with a quoteId-preserving update does not change any
quote's trade count. -/
theorem countP_tradeUpdate (db : Db) (tradeId : ℕ) (f : Trade → Trade)
    (hf : ∀ t, (f t).quoteId = t.quoteId) (qid : String) :
    (tradeUpdate db tradeId f).trades.countP (fun t => t.quoteId == qid) =
      db.trades.countP (fun t => t.quoteId == qid) := by
  show (db.trades.map _).countP _ = _
  rw [List.countP_map]
  congr 1
  funext t
  by_cases h : t.id == tradeId
  · simp [Function.comp, h, hf t]
  · simp [Function.comp, h]

/-- Inversion of a successful `tradeCreate`. -/
theorem tradeCreate_ok (db : Db) (qid : String) (st : TradeStatus)
    (tx : Option String) (db1 : Db) (t : Trade)
    (h : tradeCreate db qid st tx = .ok (db1, t)) :
    db1.trades = db.trades ++ [t] ∧ t.quoteId = qid ∧
      db.trades.countP (fun t' => t'.quoteId == qid) = 0 := by
  simp only [tradeCreate] at h
  by_cases hany : db.trades.any (fun t' => t'.quoteId == qid)
  · rw [if_pos hany] at h
    cases h
  · rw [if_neg hany] at h
    rw [Except.ok.injEq, Prod.mk.injEq] at h
    obtain ⟨h1, h2⟩ := h
    subst h1
    subst h2
    refine ⟨rfl, rfl, ?_⟩
    rw [List.countP_eq_zero]
    intro a ha
    have := List.any_eq_false.mp (Bool.eq_false_iff.mpr hany) a ha
    simpa using this

/-- Creating the first trade for a quote preserves the at-most-one
invariant. -/
theorem AtMostOne_tradeCreate (db : Db) (qid : String) (st : TradeStatus)
    (tx : Option String) (db1 : Db) (t : Trade)
    (h : tradeCreate db qid st tx = .ok (db1, t)) (hdb : AtMostOne db) :
    AtMostOne db1 := by
  obtain ⟨htr, htq, hzero⟩ := tradeCreate_ok db qid st tx db1 t h
  intro qid'
  rw [htr, List.countP_append]
  by_cases hq : qid' = qid
  · subst hq
    rw [hzero]
    simp [htq]
  · have := hdb qid'
    have hnot : (t.quoteId == qid') = false := by
      rw [htq]
      simpa using fun hc => hq hc.symm
    simp [hnot]
    exact this

/-- C2: a second `executeTrade` or `executeNativeSwap` for a quote that
already has a trade fails with the already-used error and leaves the store
untouched (no new Trade row); the event-driven entry point detects the
existing trade and skips creation; and all three entry points preserve the
at-most-one-trade-per-quote invariant. -/
theorem C2_claim (db : Db) (env : Env) (p : ExecuteTradeParams)
    (qid : String) (ev : NativeSwapEventData) (q q2 : QuoteRow) :
    (findUniqueQuote db p.quoteId = some q → ¬ (q.expiresAt < env.now) →
     (∃ t ∈ db.trades, t.quoteId = p.quoteId) →
      executeTrade db env p = (db, [], .error "This quote has already been used.")) ∧
    (findUniqueQuote db qid = some q2 → ¬ (q2.expiresAt < env.now) →
     (∃ t ∈ db.trades, t.quoteId = qid) →
      executeNativeSwap db env qid = (db, [], .error "This quote has already been used.")) ∧
    ((∃ t ∈ db.trades, t.quoteId = ev.quoteId) →
      executeNativeSwapFromEvent db env ev = (db, [])) ∧
    (AtMostOne db →
      AtMostOne (executeTrade db env p).1 ∧
      AtMostOne (executeNativeSwap db env qid).1 ∧
      AtMostOne (executeNativeSwapFromEvent db env ev).1) := by
  have hfind : ∀ qid' : String, (∃ t ∈ db.trades, t.quoteId = qid') →
      ∃ t, findFirstTrade db qid' = some t := by
    intro qid' ⟨t, ht, hq⟩
    have : (db.trades.find? (fun t' => t'.quoteId == qid')).isSome := by
      rw [List.find?_isSome]
      exact ⟨t, ht, by simp [hq]⟩
    exact Option.isSome_iff_exists.mp this
  have hvalidate : ∀ (qid' : String) (q' : QuoteRow),
      findUniqueQuote db qid' = some q' → ¬ (q'.expiresAt < env.now) →
      (∃ t ∈ db.trades, t.quoteId = qid') →
      validateQuote db env qid' = .error "This quote has already been used." := by
    intro qid' q' hq hexp hex
    obtain ⟨t, ht⟩ := hfind qid' hex
    simp only [validateQuote, hq, if_neg hexp, ht]
  refine ⟨fun hq hexp hex => ?_, fun hq hexp hex => ?_, fun hex => ?_, fun hdb => ?_⟩
  · simp only [executeTrade, hvalidate p.quoteId q hq hexp hex]
  · simp only [executeNativeSwap, hvalidate qid q2 hq hexp hex]
  · cases hq : findUniqueQuote db ev.quoteId with
    | none => simp only [executeNativeSwapFromEvent, hq]
    | some quote =>
      have hid : quote.id = ev.quoteId := by
        have := List.find?_some hq
        simpa using this
      obtain ⟨t, ht⟩ := hfind ev.quoteId hex
      simp only [executeNativeSwapFromEvent, hq, hid, ht]
  · have hupdate : ∀ (db' : Db) (tid : ℕ) (f : Trade → Trade),
        (∀ t, (f t).quoteId = t.quoteId) → AtMostOne db' → AtMostOne (tradeUpdate db' tid f) := by
      intro db' tid f hf hdb' qid'
      rw [countP_tradeUpdate db' tid f hf qid']
      exact hdb' qid'
    refine ⟨?_, ?_, ?_⟩
    · cases hval : validateQuote db env p.quoteId with
      | error e => simp only [executeTrade, hval]; exact hdb
      | ok quote =>
        cases hc : tradeCreate db quote.id .PENDING none with
        | error e => simp only [executeTrade, hval, hc]; exact hdb
        | ok pr =>
          have h1 := AtMostOne_tradeCreate db quote.id .PENDING none pr.1 pr.2
            (by rw [hc]) hdb
          cases htry : executeTradeTry env p quote with
          | ok v =>
            simp only [executeTrade, hval, hc, htry]
            exact hupdate pr.1 pr.2.id _ (fun t => rfl) h1
          | error err =>
            simp only [executeTrade, hval, hc, htry]
            exact hupdate pr.1 pr.2.id _ (fun t => rfl) h1
    · cases hval : validateQuote db env qid with
      | error e => simp only [executeNativeSwap, hval]; exact hdb
      | ok quote =>
        cases hc : tradeCreate db quote.id .PENDING none with
        | error e => simp only [executeNativeSwap, hval, hc]; exact hdb
        | ok pr =>
          have h1 := AtMostOne_tradeCreate db quote.id .PENDING none pr.1 pr.2
            (by rw [hc]) hdb
          cases htry : executeNativeSwapTry env quote with
          | ok v =>
            simp only [executeNativeSwap, hval, hc, htry]
            exact hupdate pr.1 pr.2.id _ (fun t => rfl) h1
          | error err =>
            simp only [executeNativeSwap, hval, hc, htry]
            exact h1
    · cases hq : findUniqueQuote db ev.quoteId with
      | none => simp only [executeNativeSwapFromEvent, hq]; exact hdb
      | some quote =>
        cases hft : findFirstTrade db quote.id with
        | some t => simp only [executeNativeSwapFromEvent, hq, hft]; exact hdb
        | none =>
          cases hc : tradeCreate db quote.id .PROCESSING (some ev.txHash) with
          | error e => simp only [executeNativeSwapFromEvent, hq, hft, hc]; exact hdb
          | ok pr =>
            have h1 := AtMostOne_tradeCreate db quote.id .PROCESSING (some ev.txHash)
              pr.1 pr.2 (by rw [hc]) hdb
            cases htry : eventSwapTry env quote with
            | ok v =>
              simp only [executeNativeSwapFromEvent, hq, hft, hc, htry]
              exact hupdate pr.1 pr.2.id _ (fun t => rfl) h1
            | error err =>
              simp only [executeNativeSwapFromEvent, hq, hft, hc, htry]
              exact hupdate pr.1 pr.2.id _ (fun t => rfl) h1

end TradeExecutionService

namespace TradeExecutionService

/-- C2 witness: the already-used rejection and the event-side skip on a
concrete store that holds one trade for the quote. -/
theorem C2_claim_witness :
    executeTrade fixtureDbUsed fixtureEnvPayoutFails ⟨"q1", "polygon", "0xrec"⟩ =
      (fixtureDbUsed, [], .error "This quote has already been used.") ∧
    executeNativeSwapFromEvent fixtureDbUsed fixtureEnvPayoutFails fixtureEvent =
      (fixtureDbUsed, []) := by
  have h := C2_claim fixtureDbUsed fixtureEnvPayoutFails ⟨"q1", "polygon", "0xrec"⟩
      "q1" fixtureEvent fixtureQuote fixtureQuote
  have hex : ∃ t ∈ fixtureDbUsed.trades, t.quoteId = "q1" :=
    ⟨{ id := 0, quoteId := "q1", status := .PENDING },
     by simp [fixtureDbUsed], rfl⟩
  exact ⟨h.1 (by decide) (by decide) hex, h.2.2.1 hex⟩

/-- C3: the failing input.  `executeNativeSwap` with a successful relay and
a rejected payout re-raises the payout error but leaves the created Trade
in status PENDING with no `failureReason` and broadcasts nothing (its catch
block holds only a placeholder comment and `throw error`), while the
sibling `executeTrade` path on the same store and environment records
FAILED with the message and broadcasts TRADE_FAILED as the claim (and §7 of
the specification) requires. -/
theorem C3_claim :
    executeNativeSwap fixtureDb fixtureEnvPayoutFails "q1" =
      ({ quotes := [fixtureQuote],
         trades := [{ id := 0, quoteId := "q1", status := .PENDING }],
         nextTradeId := 1 }, [],
       .error "insufficient funds for intrinsic transaction cost") ∧
    executeTrade fixtureDb fixtureEnvPayoutFails ⟨"q1", "polygon", "0xrec"⟩ =
      ({ quotes := [fixtureQuote],
         trades := [{ id := 0, quoteId := "q1", status := .FAILED,
                      failureReason := some "insufficient funds for intrinsic transaction cost" }],
         nextTradeId := 1 },
       [{ type := "TRADE_FAILED", tradeId := 0, quoteId := "q1",
          reason := some "insufficient funds for intrinsic transaction cost" }],
       .error "insufficient funds for intrinsic transaction cost") := by
  constructor
  · simp +decide [executeNativeSwap, validateQuote, findUniqueQuote, findFirstTrade,
      tradeCreate, executeNativeSwapTry, tradeUpdate, floorToDecimals,
      fixtureDb, fixtureQuote, fixtureEnvPayoutFails, fixtureRegistry, fixtureAssets,
      bind, Except.bind, pure, Except.pure]
  · simp +decide [executeTrade, validateQuote, findUniqueQuote, findFirstTrade,
      tradeCreate, executeTradeTry, tradeUpdate, convertAmount, convertAmountPrice,
      toUpperCase, fixtureDb, fixtureQuote, fixtureEnvPayoutFails, fixtureRegistry,
      fixtureAssets, bind, Except.bind, pure, Except.pure]

end TradeExecutionService

namespace TradeExecutionService

/-- C8 (counterexample): `executeTrade` does race the confirmation wait
against the 80-second timeout, but when the timer wins, the timeout Error
thrown inside the try block (whose `error.reason` is undefined) is wrapped
by the catch into `On-chain transaction failed: Unknown error` — not the
timeout-specific reason the claim requires — and it is this wrapped
generic string that the state machine records as the FAILED reason. -/
theorem C8_counterexample :
    EvmContractService.executeTrade "q1" fixtureEvmTimeout =
      .error "On-chain transaction failed: Unknown error" ∧
    ("On-chain transaction failed: Unknown error" ≠
      "Transaction timed out after 80 seconds.") ∧
    executeTrade fixtureDb fixtureEnvTimeout ⟨"q1", "polygon", "0xrec"⟩ =
      ({ quotes := [fixtureQuote],
         trades := [{ id := 0, quoteId := "q1", status := .FAILED,
                      failureReason := some "On-chain transaction failed: Unknown error" }],
         nextTradeId := 1 },
       [{ type := "TRADE_FAILED", tradeId := 0, quoteId := "q1",
          reason := some "On-chain transaction failed: Unknown error" }],
       .error "On-chain transaction failed: Unknown error") := by
  refine ⟨?_, by decide, ?_⟩
  · simp +decide [EvmContractService.executeTrade, EvmContractService.executeTradeBody,
      EvmContractService.raceOutcome, EvmContractService.wrapEvmError,
      fixtureEvmTimeout, bind, Except.bind, pure, Except.pure]
  · simp +decide [executeTrade, validateQuote, findUniqueQuote, findFirstTrade,
      tradeCreate, executeTradeTry, tradeUpdate, fixtureDb, fixtureQuote,
      fixtureEnvTimeout, fixtureEnvPayoutFails, fixtureRegistry, fixtureAssets,
      fixtureEvmTimeout, EvmContractService.executeTrade,
      EvmContractService.executeTradeBody, EvmContractService.raceOutcome,
      EvmContractService.wrapEvmError,
      bind, Except.bind, pure, Except.pure]

/-- C8 (amended): `executeTrade` races the one-confirmation wait against an
explicit 80-second timeout; a wait that settles at or beyond the bound (or
never) fails, as does an in-time on-chain revert (status ≠ 1), success
requires a status-1 receipt settling inside the bound, an in-time wait
rejection propagates its wrapped reason, and when the contract-call leg
fails the state machine marks the Trade FAILED, broadcasts, and re-raises
with no automatic retry — but the recorded reason is the wrapped generic
`On-chain transaction failed: Unknown error` (the service's own thrown
Errors, including the timeout, have no `reason`), never timeout-specific. -/
theorem C8_claim (quoteId : String) (env : EvmContractService.EvmCallEnv)
    (g : ℕ) (tx : String)
    (h1 : env.phoenixConfig = .ok ())
    (h3 : env.feeGasPrice = .ok (some g)) (h4 : env.send = .ok tx) :
    (env.wait.settlesAt = none →
      EvmContractService.executeTrade quoteId env =
        .error "On-chain transaction failed: Unknown error") ∧
    (∀ t, env.wait.settlesAt = some t → EvmContractService.TIMEOUT_MS ≤ t →
      EvmContractService.executeTrade quoteId env =
        .error "On-chain transaction failed: Unknown error") ∧
    (∀ t r, env.wait.settlesAt = some t → t < EvmContractService.TIMEOUT_MS →
      env.wait.outcome = .ok r → r.status ≠ 1 →
      EvmContractService.executeTrade quoteId env =
        .error "On-chain transaction failed: Unknown error") ∧
    (∀ res, EvmContractService.executeTrade quoteId env = .ok res →
      ∃ t r, env.wait.settlesAt = some t ∧ t < EvmContractService.TIMEOUT_MS ∧
        env.wait.outcome = .ok r ∧ r.status = 1 ∧
        res = { txHash := tx, receipt := r }) ∧
    (∀ t e, env.wait.settlesAt = some t → t < EvmContractService.TIMEOUT_MS →
      env.wait.outcome = .error e →
      EvmContractService.executeTrade quoteId env =
        .error (EvmContractService.wrapEvmError e)) ∧
    (∀ (db : Db) (senv : Env) (p : ExecuteTradeParams) (quote : QuoteRow)
       (db1 : Db) (trade : Trade) (n : Network) (m : String),
      validateQuote db senv p.quoteId = .ok quote →
      tradeCreate db quote.id .PENDING none = .ok (db1, trade) →
      senv.getNetworkById quote.fromNetworkId = some n → ¬ n.chainId = none →
      senv.contractCall = .error m →
      executeTrade db senv p =
        (tradeUpdate db1 trade.id (fun t =>
            { t with status := .FAILED, failureReason := some m }),
         [{ type := "TRADE_FAILED", tradeId := trade.id, quoteId := quote.id,
            reason := some m }],
         .error m)) := by
  refine ⟨fun hw => ?_, fun t hw ht => ?_, fun t r hw ht ho hs => ?_,
    fun res hres => ?_, fun t e hw ht ho => ?_,
    fun db senv p quote db1 trade n m hval hc hnet hchain hcall => ?_⟩
  · simp [EvmContractService.executeTrade, EvmContractService.executeTradeBody,
      EvmContractService.raceOutcome, EvmContractService.wrapEvmError,
      h1, h3, h4, hw, bind, Except.bind, pure, Except.pure]
  · simp [EvmContractService.executeTrade, EvmContractService.executeTradeBody,
      EvmContractService.raceOutcome, EvmContractService.wrapEvmError,
      h1, h3, h4, hw, Nat.not_lt.mpr ht, bind, Except.bind, pure, Except.pure]
  · simp [EvmContractService.executeTrade, EvmContractService.executeTradeBody,
      EvmContractService.raceOutcome, EvmContractService.wrapEvmError,
      h1, h3, h4, hw, ht, ho, hs, bind, Except.bind, pure, Except.pure]
  · simp only [EvmContractService.executeTrade, EvmContractService.executeTradeBody,
      h1, h3, h4, bind, Except.bind, pure, Except.pure] at hres
    cases hw : env.wait.settlesAt with
    | none => simp only [EvmContractService.raceOutcome, hw] at hres; cases hres
    | some t =>
      by_cases ht : t < EvmContractService.TIMEOUT_MS
      · simp only [EvmContractService.raceOutcome, hw, if_pos ht] at hres
        cases ho : env.wait.outcome with
        | error e => simp only [ho] at hres; cases hres
        | ok r =>
          simp only [ho] at hres
          by_cases hs : r.status ≠ 1
          · rw [if_pos hs] at hres
            simp at hres
          · rw [if_neg hs] at hres
            push_neg at hs
            have hr : ({ txHash := tx, receipt := r } : EvmContractService.EvmTradeResult) = res := by
              simpa using hres
            exact ⟨t, r, rfl, ht, rfl, hs, hr.symm⟩
      · simp only [EvmContractService.raceOutcome, hw, if_neg ht] at hres
        cases hres
  · simp [EvmContractService.executeTrade, EvmContractService.executeTradeBody,
      EvmContractService.raceOutcome, h1, h3, h4, hw, ht, ho,
      bind, Except.bind, pure, Except.pure]
  · have htry : executeTradeTry senv p quote = .error m := by
      simp only [executeTradeTry, hnet, if_neg hchain, hcall,
        bind, Except.bind, pure, Except.pure]
    simp only [executeTrade, hval, hc, htry]

/-- C8 witness: the revert shape — a transaction mined inside the timeout
bound but reverted is reported as the same wrapped failure. -/
theorem C8_claim_witness :
    EvmContractService.executeTrade "q1" fixtureEvmRevert =
      .error "On-chain transaction failed: Unknown error" := by
  have h := C8_claim "q1" fixtureEvmRevert 5000000000 "0xhash" rfl rfl rfl
  exact h.2.2.1 30000
    { status := 0, gasUsed := 21000, gasPrice := 5000000000, blockNumber := 7 }
    rfl (by decide) rfl (by decide)

end TradeExecutionService

namespace DepositMonitorWorker

theorem map_id_of_eq {α : Type} (f : α → α) (h : ∀ b, f b = b) :
    ∀ l : List α, l.map f = l := by
  intro l
  induction l with
  | nil => rfl
  | cons x xs ih => rw [List.map_cons, h x, ih]

theorem processAddress_eq (db : MonitorDb) (env : MonitorEnv)
    (a : BitcoinDepositAddress) :
    processAddress db env a =
      ({ addresses := db.addresses.map (applyUpd env a) }, traceOf env a) := by
  cases hexp : env.explorerOf a.fromNetworkId with
  | none =>
    have hid : ∀ b, applyUpd env a b = b := fun b => by simp [applyUpd, hexp]
    cases db with
    | mk addrs => simp [processAddress, traceOf, hexp, map_id_of_eq _ hid]
  | some e =>
    cases hfq : firstQualifying a.address (env.txsFor a.address) with
    | none =>
      have hid : ∀ b, applyUpd env a b = b := fun b => by simp [applyUpd, hexp, hfq]
      cases db with
      | mk addrs => simp [processAddress, traceOf, hexp, hfq, map_id_of_eq _ hid]
    | some p =>
      cases p with
      | mk tx amt =>
        simp [processAddress, traceOf, applyUpd, hexp, hfq, confirmUpdate]

theorem processList_eq (env : MonitorEnv) :
    ∀ (P : List BitcoinDepositAddress) (db : MonitorDb),
      processList env db P =
        ({ addresses := db.addresses.map (chainUpd env P) },
         P.flatMap (traceOf env)) := by
  intro P
  induction P with
  | nil =>
    intro db
    cases db with
    | mk addrs =>
      have hid : ∀ b, chainUpd env [] b = b := fun b => rfl
      simp [processList, map_id_of_eq _ hid]
  | cons a rest ih =>
    intro db
    simp only [processList, processAddress_eq, ih, List.flatMap_cons]
    rw [List.map_map]
    rfl

theorem flatten_insertGroup (a : BitcoinDepositAddress) :
    ∀ gs : List (String × List BitcoinDepositAddress),
      (flattenGroups (insertGroup gs a)).Perm (a :: flattenGroups gs) := by
  intro gs
  induction gs with
  | nil => simp [insertGroup, flattenGroups]
  | cons g rest ih =>
    cases g with
    | mk k grp =>
      by_cases hk : (k == a.fromNetworkId)
      · simp only [insertGroup, hk, if_pos, flattenGroups, List.foldr_cons]
        have : (grp ++ [a]) ++ List.foldr (fun g acc => g.2 ++ acc) [] rest =
            grp ++ (a :: List.foldr (fun g acc => g.2 ++ acc) [] rest) := by
          simp
        rw [this]
        exact List.perm_middle
      · simp only [insertGroup, hk, if_neg, flattenGroups, List.foldr_cons]
        show List.Perm (grp ++ flattenGroups (insertGroup rest a))
          (a :: (grp ++ flattenGroups rest))
        exact (List.Perm.append_left grp ih).trans List.perm_middle

theorem flatten_groupBy_perm :
    ∀ (l : List BitcoinDepositAddress) (acc : List (String × List BitcoinDepositAddress)),
      (flattenGroups (l.foldl insertGroup acc)).Perm (flattenGroups acc ++ l) := by
  intro l
  induction l with
  | nil => intro acc; simp
  | cons a rest ih =>
    intro acc
    show List.Perm (flattenGroups (rest.foldl insertGroup (insertGroup acc a)))
      (flattenGroups acc ++ a :: rest)
    have h1 := ih (insertGroup acc a)
    have h2 : List.Perm (flattenGroups (insertGroup acc a) ++ rest)
        ((a :: flattenGroups acc) ++ rest) :=
      (flatten_insertGroup a acc).append_right rest
    have h3 : List.Perm (a :: (flattenGroups acc ++ rest))
        (flattenGroups acc ++ a :: rest) := List.perm_middle.symm
    exact h1.trans (h2.trans h3)

theorem groupBy_perm (l : List BitcoinDepositAddress) :
    (flattenGroups (groupAddressesByNetwork l)).Perm l := by
  have h := flatten_groupBy_perm l []
  simpa [flattenGroups, groupAddressesByNetwork] using h

theorem firstQualifying_some (myAddress : String) :
    ∀ (txs : List BtcTx) (tx : BtcTx) (amt : ℚ),
      firstQualifying myAddress txs = some (tx, amt) →
      amt = calculateReceivedAmount tx myAddress ∧ 0 < amt ∧
        tx.confirmed = true ∧ REQUIRED_CONFIRMATIONS ≤ tx.confirmations.getD 1 := by
  intro txs
  induction txs with
  | nil => intro tx amt h; cases h
  | cons t rest ih =>
    intro tx amt h
    by_cases hc : t.confirmed ∧ REQUIRED_CONFIRMATIONS ≤ t.confirmations.getD 1
    · rw [firstQualifying, if_pos hc] at h
      by_cases hpos : 0 < calculateReceivedAmount t myAddress
      · rw [if_pos hpos] at h
        rw [Option.some.injEq, Prod.mk.injEq] at h
        obtain ⟨h1, h2⟩ := h
        subst h1
        subst h2
        exact ⟨rfl, hpos, hc.1, hc.2⟩
      · rw [if_neg hpos] at h
        exact ih tx amt h
    · rw [firstQualifying, if_neg hc] at h
      exact ih tx amt h

theorem applyUpd_fields (env : MonitorEnv) (a b : BitcoinDepositAddress) :
    (applyUpd env a b).id = b.id ∧ (applyUpd env a b).quoteId = b.quoteId ∧
      (applyUpd env a b).address = b.address ∧
      (applyUpd env a b).fromNetworkId = b.fromNetworkId := by
  unfold applyUpd
  cases env.explorerOf a.fromNetworkId with
  | none => exact ⟨rfl, rfl, rfl, rfl⟩
  | some e =>
    cases firstQualifying a.address (env.txsFor a.address) with
    | none => exact ⟨rfl, rfl, rfl, rfl⟩
    | some p =>
      cases p with
      | mk tx amt =>
        by_cases hid : (b.id == a.id)
        · simp [hid]
        · simp [hid]

theorem applyUpd_ne (env : MonitorEnv) (a b : BitcoinDepositAddress)
    (h : b.id ≠ a.id) : applyUpd env a b = b := by
  unfold applyUpd
  cases env.explorerOf a.fromNetworkId with
  | none => rfl
  | some e =>
    cases firstQualifying a.address (env.txsFor a.address) with
    | none => rfl
    | some p =>
      cases p with
      | mk tx amt => simp [h]

theorem applyUpd_shape (env : MonitorEnv) (a b : BitcoinDepositAddress) :
    applyUpd env a b = b ∨
      ∃ tx amt, applyUpd env a b = confirmedVersion b tx amt := by
  unfold applyUpd
  cases env.explorerOf a.fromNetworkId with
  | none => exact Or.inl rfl
  | some e =>
    cases firstQualifying a.address (env.txsFor a.address) with
    | none => exact Or.inl rfl
    | some p =>
      cases p with
      | mk tx amt =>
        by_cases hid : (b.id == a.id)
        · exact Or.inr ⟨tx, amt, by simp [hid, confirmedVersion]⟩
        · exact Or.inl (by simp [hid])

theorem chainUpd_not_mem (env : MonitorEnv) :
    ∀ (P : List BitcoinDepositAddress) (b : BitcoinDepositAddress),
      b.id ∉ P.map BitcoinDepositAddress.id → chainUpd env P b = b := by
  intro P
  induction P with
  | nil => intro b _; rfl
  | cons a rest ih =>
    intro b hb
    simp only [List.map_cons, List.mem_cons] at hb
    push_neg at hb
    show chainUpd env rest (applyUpd env a b) = b
    rw [applyUpd_ne env a b hb.1]
    exact ih b hb.2

theorem chainUpd_fields (env : MonitorEnv) :
    ∀ (P : List BitcoinDepositAddress) (b : BitcoinDepositAddress),
      (chainUpd env P b).id = b.id ∧ (chainUpd env P b).quoteId = b.quoteId ∧
        (chainUpd env P b).address = b.address ∧
        (chainUpd env P b).fromNetworkId = b.fromNetworkId := by
  intro P
  induction P with
  | nil => intro b; exact ⟨rfl, rfl, rfl, rfl⟩
  | cons a rest ih =>
    intro b
    obtain ⟨h1, h2, h3, h4⟩ := applyUpd_fields env a b
    obtain ⟨g1, g2, g3, g4⟩ := ih (applyUpd env a b)
    exact ⟨g1.trans h1, g2.trans h2, g3.trans h3, g4.trans h4⟩

theorem chainUpd_shape (env : MonitorEnv) :
    ∀ (P : List BitcoinDepositAddress) (b : BitcoinDepositAddress),
      chainUpd env P b = b ∨
        ∃ tx amt, chainUpd env P b = confirmedVersion b tx amt := by
  intro P
  induction P with
  | nil => intro b; exact Or.inl rfl
  | cons a rest ih =>
    intro b
    have hstep : chainUpd env (a :: rest) b = chainUpd env rest (applyUpd env a b) := rfl
    rw [hstep]
    rcases applyUpd_shape env a b with h | ⟨tx, amt, h⟩
    · rw [h]
      exact ih b
    · rw [h]
      rcases ih (confirmedVersion b tx amt) with h2 | ⟨tx2, amt2, h2⟩
      · exact Or.inr ⟨tx, amt, h2⟩
      · refine Or.inr ⟨tx2, amt2, ?_⟩
        rw [h2]
        rfl

theorem applyUpd_self (env : MonitorEnv) (a : BitcoinDepositAddress)
    (tx : BtcTx) (amt : ℚ) (hexp : (env.explorerOf a.fromNetworkId).isSome)
    (hfq : firstQualifying a.address (env.txsFor a.address) = some (tx, amt)) :
    applyUpd env a a = confirmedVersion a tx amt := by
  obtain ⟨e, he⟩ := Option.isSome_iff_exists.mp hexp
  simp [applyUpd, he, hfq, confirmedVersion]

theorem chainUpd_mem (env : MonitorEnv) :
    ∀ (P : List BitcoinDepositAddress) (b : BitcoinDepositAddress)
      (tx : BtcTx) (amt : ℚ),
      (P.map BitcoinDepositAddress.id).Nodup → b ∈ P →
      (env.explorerOf b.fromNetworkId).isSome →
      firstQualifying b.address (env.txsFor b.address) = some (tx, amt) →
      chainUpd env P b = confirmedVersion b tx amt := by
  intro P
  induction P with
  | nil => intro b tx amt _ hb; cases hb
  | cons a rest ih =>
    intro b tx amt hnd hb hexp hfq
    simp only [List.map_cons, List.nodup_cons] at hnd
    show chainUpd env rest (applyUpd env a b) = confirmedVersion b tx amt
    rcases List.mem_cons.mp hb with rfl | hbr
    · rw [applyUpd_self env b tx amt hexp hfq]
      have : (confirmedVersion b tx amt).id ∉ rest.map BitcoinDepositAddress.id := by
        simpa [confirmedVersion] using hnd.1
      exact chainUpd_not_mem env rest _ this
    · have hne : b.id ≠ a.id := by
        intro hc
        exact hnd.1 (hc ▸ List.mem_map_of_mem BitcoinDepositAddress.id hbr)
      rw [applyUpd_ne env a b hne]
      exact ih b tx amt hnd.2 hbr hexp hfq

theorem countTriggers_append (e1 e2 : List MonitorEffect) (qid : String) :
    countTriggers (e1 ++ e2) qid = countTriggers e1 qid + countTriggers e2 qid :=
  List.countP_append _ _ _

theorem traceOf_of_qualifying (env : MonitorEnv) (a : BitcoinDepositAddress)
    (tx : BtcTx) (amt : ℚ) (hexp : (env.explorerOf a.fromNetworkId).isSome)
    (hfq : firstQualifying a.address (env.txsFor a.address) = some (tx, amt)) :
    traceOf env a =
      [.notifyDepositConfirmed a.quoteId tx.txid amt,
       .updateConfirmed a.id tx.txid (amt / 100000000),
       .initiateSwap a.quoteId (amt / 100000000)] := by
  obtain ⟨e, he⟩ := Option.isSome_iff_exists.mp hexp
  simp [traceOf, processAddress, he, hfq]

theorem traceOf_not_qualifying (env : MonitorEnv) (a : BitcoinDepositAddress)
    (h : qualifiesB env a = false) : traceOf env a = [] := by
  simp only [qualifiesB, Bool.and_eq_false_iff] at h
  rcases h with h | h
  · cases he : env.explorerOf a.fromNetworkId with
    | none => simp [traceOf, processAddress, he]
    | some e => rw [he] at h; cases h
  · cases hfq : firstQualifying a.address (env.txsFor a.address) with
    | none =>
      cases he : env.explorerOf a.fromNetworkId with
      | none => simp [traceOf, processAddress, he]
      | some e => simp [traceOf, processAddress, he, hfq]
    | some p => rw [hfq] at h; cases h

theorem countTriggers_traceOf (env : MonitorEnv) (a : BitcoinDepositAddress)
    (qid : String) :
    countTriggers (traceOf env a) qid =
      if qualifiesB env a && (a.quoteId == qid) then 1 else 0 := by
  cases hq : qualifiesB env a with
  | false => simp [traceOf_not_qualifying env a hq, countTriggers]
  | true =>
    simp only [qualifiesB, Bool.and_eq_true] at hq
    obtain ⟨p, hp⟩ := Option.isSome_iff_exists.mp hq.2
    cases p with
    | mk tx amt =>
      rw [traceOf_of_qualifying env a tx amt hq.1 hp]
      by_cases hqid : (a.quoteId == qid)
      · simp [countTriggers, List.countP_cons, hqid, qualifiesB, hq.1, hp]
      · simp [countTriggers, List.countP_cons, hqid, qualifiesB, hq.1, hp]

theorem countTriggers_flatMap (env : MonitorEnv) (qid : String) :
    ∀ P : List BitcoinDepositAddress,
      countTriggers (P.flatMap (traceOf env)) qid =
        P.countP (fun a => qualifiesB env a && (a.quoteId == qid)) := by
  intro P
  induction P with
  | nil => rfl
  | cons a rest ih =>
    rw [List.flatMap_cons, countTriggers_append, ih, countTriggers_traceOf,
      List.countP_cons]
    by_cases h : (qualifiesB env a && (a.quoteId == qid))
    · simp [h]
      omega
    · simp [h]

theorem cycle_eq (db : MonitorDb) (env : MonitorEnv) :
    checkPendingDeposits db env =
      ({ addresses := db.addresses.map (chainUpd env (processOrder db)) },
       (processOrder db).flatMap (traceOf env)) := by
  rw [checkPendingDeposits, processList_eq]
  rfl

theorem countTriggers_cycle (db : MonitorDb) (env : MonitorEnv) (qid : String) :
    countTriggers (checkPendingDeposits db env).2 qid = qualCount db env qid := by
  rw [cycle_eq]
  show countTriggers ((processOrder db).flatMap (traceOf env)) qid = _
  rw [countTriggers_flatMap]
  have hperm : (processOrder db).Perm (pendingOf db) := groupBy_perm (pendingOf db)
  rw [hperm.countP_eq]
  rw [pendingOf, List.countP_filter]
  rw [qualCount]
  have hfun : (fun a => (qualifiesB env a && (a.quoteId == qid)) &&
      (a.status == DepositStatus.PENDING_DEPOSIT)) =
      (fun a => a.status == DepositStatus.PENDING_DEPOSIT &&
        qualifiesB env a && (a.quoteId == qid)) := by
    funext a
    cases h1 : qualifiesB env a <;>
      cases h2 : (a.quoteId == qid) <;>
        cases h3 : (a.status == DepositStatus.PENDING_DEPOSIT) <;> rfl
  rw [hfun]

theorem processOrder_nodup_ids (db : MonitorDb)
    (hids : (db.addresses.map BitcoinDepositAddress.id).Nodup) :
    ((processOrder db).map BitcoinDepositAddress.id).Nodup := by
  have hpend_sub : (pendingOf db).Sublist db.addresses := List.filter_sublist _
  have hnodup_pend : ((pendingOf db).map BitcoinDepositAddress.id).Nodup :=
    List.Nodup.sublist (hpend_sub.map _) hids
  have hperm := (groupBy_perm (pendingOf db)).map BitcoinDepositAddress.id
  exact hperm.nodup_iff.mpr hnodup_pend

theorem qualCount_cycle_zero (db : MonitorDb) (env : MonitorEnv) (qid : String)
    (hids : (db.addresses.map BitcoinDepositAddress.id).Nodup) :
    qualCount (checkPendingDeposits db env).1 env qid = 0 := by
  rw [cycle_eq]
  show qualCount { addresses := db.addresses.map (chainUpd env (processOrder db)) } env qid = 0
  rw [qualCount]
  show (db.addresses.map (chainUpd env (processOrder db))).countP _ = 0
  rw [List.countP_map]
  rw [List.countP_eq_zero]
  intro b hb
  rcases chainUpd_shape env (processOrder db) b with h | ⟨tx, amt, h⟩
  · simp only [Function.comp]
    rw [h]
    by_cases hpred : (b.status == DepositStatus.PENDING_DEPOSIT &&
        qualifiesB env b && (b.quoteId == qid)) = true
    · exfalso
      have hstat : b.status = DepositStatus.PENDING_DEPOSIT := by
        have := hpred
        simp only [Bool.and_eq_true, beq_iff_eq] at this
        exact this.1.1
      have hqual : qualifiesB env b = true := by
        have := hpred
        simp only [Bool.and_eq_true] at this
        exact this.1.2
      simp only [qualifiesB, Bool.and_eq_true] at hqual
      obtain ⟨p, hp⟩ := Option.isSome_iff_exists.mp hqual.2
      cases p with
      | mk tx2 amt2 =>
        have hbP : b ∈ processOrder db := by
          apply (groupBy_perm (pendingOf db)).mem_iff.mpr
          rw [pendingOf, List.mem_filter]
          exact ⟨hb, by simp [hstat]⟩
        have hconf := chainUpd_mem env (processOrder db) b tx2 amt2
          (processOrder_nodup_ids db hids) hbP hqual.1 hp
        rw [h] at hconf
        have : b.status = DepositStatus.CONFIRMED := by
          rw [hconf]
          rfl
        rw [hstat] at this
        cases this
    · exact hpred
  · simp only [Function.comp]
    rw [h]
    simp [confirmedVersion]

theorem map_congr_fun {α β : Type} (f g : α → β) (h : ∀ b, f b = g b) :
    ∀ l : List α, l.map f = l.map g := by
  intro l
  induction l with
  | nil => rfl
  | cons x xs ih => rw [List.map_cons, List.map_cons, h x, ih]

theorem cycle_nodup_ids (db : MonitorDb) (env : MonitorEnv)
    (hids : (db.addresses.map BitcoinDepositAddress.id).Nodup) :
    ((checkPendingDeposits db env).1.addresses.map BitcoinDepositAddress.id).Nodup := by
  rw [cycle_eq]
  show ((db.addresses.map (chainUpd env (processOrder db))).map BitcoinDepositAddress.id).Nodup
  rw [List.map_map]
  have heq := map_congr_fun (BitcoinDepositAddress.id ∘ chainUpd env (processOrder db))
    BitcoinDepositAddress.id
    (fun b => (chainUpd_fields env (processOrder db) b).1) db.addresses
  rw [heq]
  exact hids

theorem runCycles_count (env : MonitorEnv) (qid : String) :
    ∀ (n : ℕ) (db : MonitorDb),
      (db.addresses.map BitcoinDepositAddress.id).Nodup →
      countTriggers (runCycles env n db).2 qid =
        if n = 0 then 0 else qualCount db env qid := by
  intro n
  induction n with
  | zero => intro db _; rfl
  | succ k ih =>
    intro db hids
    show countTriggers ((checkPendingDeposits db env).2 ++
      (runCycles env k (checkPendingDeposits db env).1).2) qid = _
    rw [countTriggers_append, countTriggers_cycle]
    have h2 := ih (checkPendingDeposits db env).1 (cycle_nodup_ids db env hids)
    cases k with
    | zero =>
      rw [h2]
      simp
    | succ m =>
      rw [h2, if_neg (Nat.succ_ne_zero m),
        qualCount_cycle_zero db env qid hids]
      simp

theorem countP_beq_le_one {α : Type} (f : α → String) (c : String) :
    ∀ l : List α, (l.map f).Nodup → l.countP (fun b => f b == c) ≤ 1 := by
  intro l
  induction l with
  | nil => intro _; simp
  | cons a rest ih =>
    intro h
    rw [List.map_cons, List.nodup_cons] at h
    rw [List.countP_cons]
    by_cases hc : (f a == c)
    · have hzero : rest.countP (fun b => f b == c) = 0 := by
        rw [List.countP_eq_zero]
        intro b hb hbc
        apply h.1
        have h1 : f b = c := by simpa using hbc
        have h2 : f a = c := by simpa using hc
        rw [h2, ← h1]
        exact List.mem_map_of_mem f hb
      simp [hc, hzero]
    · have := ih h.2
      simp [hc]
      omega

theorem countP_eq_one_unique {α : Type} (p : α → Bool) (f : α → String)
    (a : α) (hpa : p a = true) (hall : ∀ b, p b = true → f b = f a) :
    ∀ l : List α, (l.map f).Nodup → a ∈ l → l.countP p = 1 := by
  intro l
  induction l with
  | nil => intro _ ha; cases ha
  | cons x rest ih =>
    intro hnd hmem
    rw [List.map_cons, List.nodup_cons] at hnd
    rw [List.countP_cons]
    rcases List.mem_cons.mp hmem with rfl | hrest
    · have hzero : rest.countP p = 0 := by
        rw [List.countP_eq_zero]
        intro b hb hpb
        apply hnd.1
        rw [← hall b hpb]
        exact List.mem_map_of_mem f hb
      simp [hpa, hzero]
    · have hpx : p x = false := by
        by_contra hx
        have hx' : p x = true := by
          cases hpx2 : p x with
          | false => exact absurd hpx2 hx
          | true => rfl
        apply hnd.1
        rw [hall x hx']
        exact List.mem_map_of_mem f hrest
      rw [hpx]
      simp [ih hnd.2 hrest]

theorem traceOf_sublist (env : MonitorEnv) :
    ∀ (P : List BitcoinDepositAddress) (a : BitcoinDepositAddress), a ∈ P →
      (traceOf env a).Sublist (P.flatMap (traceOf env)) := by
  intro P
  induction P with
  | nil => intro a ha; cases ha
  | cons p rest ih =>
    intro a ha
    rw [List.flatMap_cons]
    rcases List.mem_cons.mp ha with rfl | hrest
    · exact List.sublist_append_left _ _
    · exact (ih a hrest).trans (List.sublist_append_right _ _)

/-- C4: within a monitor cycle a CONFIRMED BitcoinDepositAddress is left
untouched and triggers nothing; a PENDING_DEPOSIT address whose explorer
history contains a first qualifying transaction is updated to CONFIRMED
with that transaction's hash and the received amount summed over all
outputs paying exactly that address, exactly one UTXO execution trigger is
emitted for it, and within the cycle's effect order the CONFIRMED row
update precedes the execution trigger; across any number of sequential
monitor cycles (the single-flight guard prevents overlap) the address
triggers execution at most once, because only PENDING_DEPOSIT rows are
selected and the row is CONFIRMED before the next cycle can see it. -/
theorem C4_claim (db : MonitorDb) (env : MonitorEnv) (n : ℕ)
    (a : BitcoinDepositAddress)
    (hids : (db.addresses.map BitcoinDepositAddress.id).Nodup)
    (hqids : (db.addresses.map BitcoinDepositAddress.quoteId).Nodup)
    (ha : a ∈ db.addresses) :
    (a.status = .CONFIRMED →
      a ∈ (checkPendingDeposits db env).1.addresses ∧
      countTriggers (checkPendingDeposits db env).2 a.quoteId = 0) ∧
    (∀ tx amt, a.status = .PENDING_DEPOSIT →
      (env.explorerOf a.fromNetworkId).isSome →
      firstQualifying a.address (env.txsFor a.address) = some (tx, amt) →
      confirmedVersion a tx amt ∈ (checkPendingDeposits db env).1.addresses ∧
      amt = calculateReceivedAmount tx a.address ∧
      countTriggers (checkPendingDeposits db env).2 a.quoteId = 1 ∧
      [MonitorEffect.updateConfirmed a.id tx.txid (amt / 100000000),
       MonitorEffect.initiateSwap a.quoteId (amt / 100000000)].Sublist
        (checkPendingDeposits db env).2) ∧
    countTriggers (runCycles env n db).2 a.quoteId ≤ 1 := by
  refine ⟨fun hconf => ⟨?_, ?_⟩, fun tx amt hpend hexp hfq => ?_, ?_⟩
  · -- a CONFIRMED: untouched by the cycle
    rw [cycle_eq]
    show a ∈ db.addresses.map (chainUpd env (processOrder db))
    have hnotin : a.id ∉ (processOrder db).map BitcoinDepositAddress.id := by
      intro hin
      obtain ⟨b, hbP, hbid⟩ := List.mem_map.mp hin
      have hbpend : b ∈ pendingOf db := (groupBy_perm (pendingOf db)).mem_iff.mp hbP
      rw [pendingOf, List.mem_filter] at hbpend
      have hba : b = a := List.inj_on_of_nodup_map hids hbpend.1 ha hbid
      rw [hba] at hbpend
      rw [hconf] at hbpend
      simp at hbpend
    have hfix : chainUpd env (processOrder db) a = a :=
      chainUpd_not_mem env (processOrder db) a hnotin
    have := List.mem_map_of_mem (chainUpd env (processOrder db)) ha
    rw [hfix] at this
    exact this
  · -- a CONFIRMED: no trigger this cycle
    rw [countTriggers_cycle, qualCount, List.countP_eq_zero]
    intro b hb hpb
    simp only [Bool.and_eq_true, beq_iff_eq] at hpb
    have hba : b = a :=
      List.inj_on_of_nodup_map hqids hb ha hpb.2
    rw [hba] at hpb
    rw [hconf] at hpb
    exact absurd hpb.1.1 (by simp)
  · -- a PENDING with a qualifying transaction
    have haP : a ∈ processOrder db := by
      apply (groupBy_perm (pendingOf db)).mem_iff.mpr
      rw [pendingOf, List.mem_filter]
      exact ⟨ha, by simp [hpend]⟩
    obtain ⟨hamt, hpos, hcf, hconfs⟩ :=
      firstQualifying_some a.address (env.txsFor a.address) tx amt hfq
    have hqual : qualifiesB env a = true := by
      rw [qualifiesB, hfq]
      simp [hexp]
    refine ⟨?_, hamt, ?_, ?_⟩
    · rw [cycle_eq]
      show confirmedVersion a tx amt ∈ db.addresses.map (chainUpd env (processOrder db))
      have hchain := chainUpd_mem env (processOrder db) a tx amt
        (processOrder_nodup_ids db hids) haP hexp hfq
      have := List.mem_map_of_mem (chainUpd env (processOrder db)) ha
      rw [hchain] at this
      exact this
    · rw [countTriggers_cycle, qualCount]
      refine countP_eq_one_unique _ BitcoinDepositAddress.quoteId a ?_ ?_
        db.addresses hqids ha
      · simp [hpend, hqual]
      · intro b hpb
        simp only [Bool.and_eq_true, beq_iff_eq] at hpb
        exact hpb.2
    · rw [cycle_eq]
      show List.Sublist _ ((processOrder db).flatMap (traceOf env))
      have htrace := traceOf_of_qualifying env a tx amt hexp hfq
      have hsub1 : [MonitorEffect.updateConfirmed a.id tx.txid (amt / 100000000),
          MonitorEffect.initiateSwap a.quoteId (amt / 100000000)].Sublist
            (traceOf env a) := by
        rw [htrace]
        exact List.sublist_cons_self _ _
      exact hsub1.trans (traceOf_sublist env (processOrder db) a haP)
  · -- at most one trigger across any number of cycles
    rw [runCycles_count env a.quoteId n db hids]
    by_cases hn : n = 0
    · simp [hn]
    · rw [if_neg hn]
      have h1 : qualCount db env a.quoteId ≤
          db.addresses.countP (fun b => b.quoteId == a.quoteId) := by
        apply List.countP_mono_left
        intro b _ hpb
        simp only [Bool.and_eq_true] at hpb
        exact hpb.2
      exact h1.trans (countP_beq_le_one BitcoinDepositAddress.quoteId a.quoteId
        db.addresses hqids)

/-- C4 witness: the fixture address is confirmed with the summed amount and
triggers exactly one execution. -/
theorem C4_claim_witness :
    confirmedVersion fixtureAddr fixtureTx 70000 ∈
      (checkPendingDeposits fixtureMonitorDb fixtureMonitorEnv).1.addresses ∧
    countTriggers (checkPendingDeposits fixtureMonitorDb fixtureMonitorEnv).2 "q1" = 1 := by
  have h := (C4_claim fixtureMonitorDb fixtureMonitorEnv 2 fixtureAddr
      (by simp [fixtureMonitorDb, fixtureAddr])
      (by simp [fixtureMonitorDb, fixtureAddr])
      (by simp [fixtureMonitorDb])).2.1 fixtureTx 70000 rfl rfl
      (by
        simp +decide [firstQualifying, calculateReceivedAmount, fixtureMonitorEnv,
          fixtureTx, fixtureAddr, REQUIRED_CONFIRMATIONS]
        try norm_num)
  exact ⟨h.1, h.2.2.1⟩

end DepositMonitorWorker
